import Mathlib

/-!
Verification development for the k8s-lsp resolution engine.

The Go sources are embedded shallowly:

* Parsed YAML documents (gopkg.in/yaml.v3 node trees) are modelled by the
  inductive `YNode`.  The `yaml.Node` fields used by the program are kept:
  `Value`, `Line`, `Column`, `Style` and `Content`.  A document stream is a
  `List YNode` of document roots (the `DocumentNode` wrapper that the Go code
  unwraps immediately is not represented).  YAML parsing and serialization are
  external to the verified code; the serialize-then-reparse step of
  `UpdateEmbeddedContent` is modelled as the identity on node trees, and the
  `Value`/`Style` fields that the Go code writes onto a non-scalar node are
  dropped, exactly as a serialize/reparse round trip drops them.
* Go strings are byte strings.  They are modelled by `String`, where each
  `Char` stands for one byte; predicates named `IsByteStr` mark the inputs on
  which this representation is exact (every scalar value below 256).
* Go maps are modelled by association lists (`Store.resources`, resource
  labels).  Go map iteration order is unspecified; the model fixes insertion
  order, and the proved statements do not depend on that order.
* `uint32` casts of `Line-1`/`Column-1` are modelled with `Nat` subtraction;
  the YAML parser produces 1-based positions, so the subtraction never
  truncates on reachable inputs.
* The Go `error` results of the embedded-content operations are modelled by
  `Except EmbErr`; each `EmbErr` constructor corresponds to one
  `fmt.Errorf` call site in the source and carries the same data.
  `ResolveDefinition` and `ResolveReferences` return a non-nil error only
  when YAML decoding fails; on parsed trees every path returns a nil error,
  so their embeddings return plain lists.
-/

namespace K8sLsp

/-! ## YAML node trees (gopkg.in/yaml.v3 `yaml.Node`) -/

inductive YStyle where
  | plain
  | literal
  | folded
  | doubleQuoted
  | singleQuoted
  | flow
  deriving DecidableEq, Repr

inductive YNode where
  | scalar (value : String) (line col : Nat) (style : YStyle)
  | mapping (content : List (YNode × YNode)) (line col : Nat)
  | seq (content : List YNode) (line col : Nat)
  deriving Repr

mutual

def ynodeBeq : YNode → YNode → Bool
  | .scalar v1 l1 c1 s1, .scalar v2 l2 c2 s2 => v1 = v2 ∧ l1 = l2 ∧ c1 = c2 ∧ s1 = s2
  | .mapping p1 l1 c1, .mapping p2 l2 c2 => ynodePairsBeq p1 p2 ∧ l1 = l2 ∧ c1 = c2
  | .seq i1 l1 c1, .seq i2 l2 c2 => ynodeListBeq i1 i2 ∧ l1 = l2 ∧ c1 = c2
  | _, _ => false

def ynodePairsBeq : List (YNode × YNode) → List (YNode × YNode) → Bool
  | [], [] => true
  | (k1, v1) :: r1, (k2, v2) :: r2 =>
      ynodeBeq k1 k2 ∧ ynodeBeq v1 v2 ∧ ynodePairsBeq r1 r2
  | _, _ => false

def ynodeListBeq : List YNode → List YNode → Bool
  | [], [] => true
  | a :: r1, b :: r2 => ynodeBeq a b ∧ ynodeListBeq r1 r2
  | _, _ => false

end

instance : BEq YNode := ⟨ynodeBeq⟩

/-- Go `node.Value` (empty for mapping and sequence nodes). -/
def YNode.valueOf : YNode → String
  | .scalar v _ _ _ => v
  | _ => ""

/-- Go `node.Line`. -/
def YNode.lineOf : YNode → Nat
  | .scalar _ l _ _ => l
  | .mapping _ l _ => l
  | .seq _ l _ => l

/-- Go `node.Column`. -/
def YNode.colOf : YNode → Nat
  | .scalar _ _ c _ => c
  | .mapping _ _ c => c
  | .seq _ _ c => c

/-- Go `node.Kind == yaml.ScalarNode`. -/
def YNode.isScalar : YNode → Bool
  | .scalar _ _ _ _ => true
  | _ => false

/-- Go `node.Style`; a mapping or sequence node is never quoted, literal or
folded, which are the only styles the embedded code tests. -/
def YNode.styleOf : YNode → YStyle
  | .scalar _ _ _ st => st
  | _ => .plain

/-! ## LSP protocol result types (glsp protocol_3_16) -/

structure Position where
  line : Nat
  character : Nat
  deriving DecidableEq, Repr

/-- LSP `Range`; the Go field `End` is called `stop` because `end` is a Lean
keyword. -/
structure Range where
  start : Position
  stop : Position
  deriving DecidableEq, Repr

structure Location where
  uri : String
  range : Range
  deriving DecidableEq, Repr

structure LocationLink where
  originSelectionRange : Option Range
  targetURI : String
  targetRange : Range
  targetSelectionRange : Range
  deriving DecidableEq, Repr

/-! ## Rule configuration (pkg/config) -/

structure SymbolDefinition where
  kinds : List String
  path : String
  deriving DecidableEq, Repr

structure Symbol where
  name : String
  description : String
  keyTemplate : String
  definitions : List SymbolDefinition
  deriving DecidableEq, Repr

structure ReferenceMatch where
  kinds : List String
  path : String
  deriving DecidableEq, Repr

/-- Go `config.Reference`; the Go field `Match` is called `matchRule` because
`match` is a Lean keyword. -/
structure ConfigReference where
  name : String
  symbol : String
  targetKind : String
  matchRule : ReferenceMatch
  deriving DecidableEq, Repr

structure Config where
  version : Nat
  symbols : List Symbol
  references : List ConfigReference
  deriving DecidableEq, Repr

/-! ## Path matching helpers (shared by pkg/indexer and pkg/resolver) -/

/-- Go `strings.Split(s, sep)` for a single-character separator. -/
def splitCharsOn (sep : Char) : List Char → List (List Char)
  | [] => [[]]
  | c :: rest =>
      if c = sep then [] :: splitCharsOn sep rest
      else
        match splitCharsOn sep rest with
        | [] => [[c]]
        | line :: more => (c :: line) :: more

def splitOnChar (s : String) (sep : Char) : List String :=
  (splitCharsOn sep s.data).map String.mk

/-- Go `strings.Contains(s, t)` for a single-character `t`. -/
def strContainsChar (s : String) (c : Char) : Bool :=
  s.data.any (fun x => x = c)

/-- Go `strings.TrimSuffix(part, "[]")`. -/
def stripListMarker (part : String) : String :=
  match part.data.reverse with
  | ']' :: '[' :: rest => String.mk rest.reverse
  | _ => part

def matchSegs : List String → List String → Bool
  | [], [] => true
  | part :: ps, cur :: cs => stripListMarker part = cur ∧ matchSegs ps cs
  | _, _ => false

/-- Go `matchPath(current, pattern)`: equal length, segment-wise equality after
stripping the cosmetic `[]` annotation. -/
def matchPath (current : List String) (pattern : String) : Bool :=
  matchSegs (splitOnChar pattern '.') current

def matchSegsPref : List String → List String → Bool
  | [], _ => true
  | _ :: _, [] => false
  | part :: ps, cur :: cs => stripListMarker part = cur ∧ matchSegsPref ps cs

/-- Go `matchPathPrefix(current, pattern)`: `current` begins with all of the
pattern segments. -/
def matchPathPref (current : List String) (pattern : String) : Bool :=
  matchSegsPref (splitOnChar pattern '.') current

/-- Go `contains(slice, item)`. -/
def contains (slice : List String) (item : String) : Bool :=
  slice.any (fun s => s = item)

/-- Go `matchesKind(ruleKinds, currentKind)`: exact kind or the `*` wildcard. -/
def matchesKind (ruleKinds : List String) (currentKind : String) : Bool :=
  ruleKinds.any (fun k => k = "*" ∨ k = currentKind)

/-! ## Resource store (pkg/indexer store) -/

/-- Go `indexer.Reference`. -/
structure Reference where
  kind : String
  name : String
  namespace_ : String
  symbol : String
  key : String
  line : Nat
  col : Nat
  deriving DecidableEq, Repr

/-- Go `indexer.K8sResource`.  Labels are an association list standing for the
Go `map[string]string`. -/
structure K8sResource where
  apiVersion : String
  kind : String
  name : String
  namespace_ : String
  labels : List (String × String)
  references : List Reference
  filePath : String
  line : Nat
  col : Nat
  deriving DecidableEq, Repr

/-- Go `indexer.Store`: a map keyed by `Kind/Namespace/Name`, modelled as an
association list. -/
structure Store where
  resources : List (String × K8sResource)
  deriving DecidableEq, Repr

/-- Go `makeKey`: empty namespace defaults to `default`. -/
def makeKey (kind namespace_ name : String) : String :=
  let ns := if namespace_ = "" then "default" else namespace_
  kind ++ "/" ++ ns ++ "/" ++ name

def assocSet (l : List (String × K8sResource)) (k : String) (r : K8sResource) :
    List (String × K8sResource) :=
  match l with
  | [] => [(k, r)]
  | (k0, r0) :: rest => if k0 = k then (k, r) :: rest else (k0, r0) :: assocSet rest k r

def assocGet (l : List (String × K8sResource)) (k : String) : Option K8sResource :=
  match l with
  | [] => none
  | (k0, r0) :: rest => if k0 = k then some r0 else assocGet rest k

/-- Go `Store.Add`: map assignment under the write lock. -/
def Store.Add (s : Store) (res : K8sResource) : Store :=
  ⟨assocSet s.resources (makeKey res.kind res.namespace_ res.name) res⟩

/-- Go `Store.Get`. -/
def Store.Get (s : Store) (kind namespace_ name : String) : Option K8sResource :=
  assocGet s.resources (makeKey kind namespace_ name)

def labelsGet (ls : List (String × String)) (k : String) : Option String :=
  match ls with
  | [] => none
  | (k0, v0) :: rest => if k0 = k then some v0 else labelsGet rest k

def labelsSet (ls : List (String × String)) (k v : String) : List (String × String) :=
  match ls with
  | [] => [(k, v)]
  | (k0, v0) :: rest => if k0 = k then (k, v) :: rest else (k0, v0) :: labelsSet rest k v

/-- Go `Store.FindByLabel`: linear scan for resources carrying the label. -/
def Store.FindByLabel (s : Store) (key value : String) : List K8sResource :=
  (s.resources.filter (fun kv => labelsGet kv.2.labels key = some value)).map (fun kv => kv.2)

/-- Go `Store.FindReferences`: resources holding at least one outbound
reference to `(kind, name)`. -/
def Store.FindReferences (s : Store) (kind name : String) : List K8sResource :=
  (s.resources.filter (fun kv =>
    kv.2.references.any (fun ref => ref.kind = kind ∧ ref.name = name))).map (fun kv => kv.2)

/-- Go `Store.FindLabelReferences`: resources holding a `k8s.label` reference
with the given value. -/
def Store.FindLabelReferences (s : Store) (value : String) : List K8sResource :=
  (s.resources.filter (fun kv =>
    kv.2.references.any (fun ref => ref.symbol = "k8s.label" ∧ ref.name = value))).map
      (fun kv => kv.2)

/-! ## Point query (resolver `findNodeAt`) -/

/-- Go `isKeyMatch`: strict same-line span check for a mapping key, widened by
two columns for quoted scalars, end-inclusive. -/
def isKeyMatch (n : YNode) (line col : Nat) : Bool :=
  match n with
  | .scalar v nl nc st =>
      if nl ≠ line then false
      else
        let endCol := nc + v.length + (if st = .doubleQuoted ∨ st = .singleQuoted then 2 else 0)
        nc ≤ col ∧ col ≤ endCol
  | _ => false

/-- Go `isValueMatch`: same-line span check for scalars; for mapping and
sequence nodes only the start position is bounded. -/
def isValueMatch (n : YNode) (line col : Nat) : Bool :=
  match n with
  | .scalar v nl nc st =>
      let endCol := nc + v.length + (if st = .doubleQuoted ∨ st = .singleQuoted then 2 else 0)
      line = nl ∧ nc ≤ col ∧ col ≤ endCol
  | .mapping _ nl nc | .seq _ nl nc =>
      if line < nl then false
      else if line = nl ∧ col < nc then false
      else true

mutual

/-- Go `findNodeAt`: most specific node containing the 1-based point, its
parent mapping (when known) and the structural path to it. -/
def findNodeAt (n : YNode) (line col : Nat) : Option (YNode × Option YNode × List String) :=
  match n with
  | .scalar v nl nc st =>
      if isValueMatch (.scalar v nl nc st) line col then
        some (.scalar v nl nc st, none, [])
      else none
  | .mapping content ml mc => findNodeAtPairs (.mapping content ml mc) content line col
  | .seq items _ _ => findNodeAtSeq items line col

def findNodeAtPairs (m : YNode) (ps : List (YNode × YNode)) (line col : Nat) :
    Option (YNode × Option YNode × List String) :=
  match ps with
  | [] => none
  | (k, v) :: rest =>
      if isKeyMatch k line col then some (k, some m, [k.valueOf]) else
      if isValueMatch v line col then
        match v with
        | .scalar a b c d => some (.scalar a b c d, some m, [k.valueOf])
        | _ =>
          match findNodeAt v line col with
          | some (f, p, sub) => some (f, p, k.valueOf :: sub)
          | none => findNodeAtPairs m rest line col
      else
        if k.lineOf = line ∧ v.isScalar ∧ v.lineOf = line ∧ v.valueOf = "" ∧
            col > k.colOf + k.valueOf.length then
          some (v, some m, [k.valueOf])
        else findNodeAtPairs m rest line col

def findNodeAtSeq (items : List YNode) (line col : Nat) :
    Option (YNode × Option YNode × List String) :=
  match items with
  | [] => none
  | item :: rest =>
      if isValueMatch item line col then
        match findNodeAt item line col with
        | some r => some r
        | none => findNodeAtSeq rest line col
      else findNodeAtSeq rest line col

end

/-! ## Document field helpers (resolver `findKind` / `findName` / `findNamespace`) -/

/-- First value bound to `key` in a mapping entry list (Go loops that `break`
after the first matching key). -/
def lookupYKey (entries : List (YNode × YNode)) (key : String) : Option YNode :=
  match entries with
  | [] => none
  | (k, v) :: rest => if k.valueOf = key then some v else lookupYKey rest key

/-- Last value bound to `key` (Go `switch` loops without `break`, where a later
occurrence overwrites an earlier one). -/
def lookupYKeyLast (entries : List (YNode × YNode)) (key : String) : Option YNode :=
  match entries with
  | [] => none
  | (k, v) :: rest =>
      match lookupYKeyLast rest key with
      | some r => some r
      | none => if k.valueOf = key then some v else none

/-- Go `getMapValue` / the local `get` helpers: first value for `key` when the
node is a mapping, nothing otherwise. -/
def getMapValueN : YNode → String → Option YNode
  | .mapping entries _ _, key => lookupYKey entries key
  | _, _ => none

/-- Go `getMappingScalarValue`: the first value for `key`, and only when that
value is a scalar. -/
def getMappingScalarValueN (n : YNode) (key : String) : Option YNode :=
  match getMapValueN n key with
  | some v => if v.isScalar then some v else none
  | none => none

/-- Go `findKind`: value of the first top-level `kind` entry. -/
def findKind (root : YNode) : String :=
  match root with
  | .mapping content _ _ =>
      match lookupYKey content "kind" with
      | some v => v.valueOf
      | none => ""
  | _ => ""

def findMetaFieldIn (entries : List (YNode × YNode)) (field : String) : String :=
  match entries with
  | [] => ""
  | (k, v) :: rest =>
      if k.valueOf = "metadata" then
        match v with
        | .mapping metaEntries _ _ =>
            match lookupYKey metaEntries field with
            | some n => n.valueOf
            | none => findMetaFieldIn rest field
        | _ => findMetaFieldIn rest field
      else findMetaFieldIn rest field

/-- Go `findName`: `metadata.name` of the document, scanning further
`metadata` entries when an earlier one lacks the field. -/
def findName (root : YNode) : String :=
  match root with
  | .mapping content _ _ => findMetaFieldIn content "name"
  | _ => ""

/-- Go `findNamespace`: `metadata.namespace` of the document. -/
def findNamespace (root : YNode) : String :=
  match root with
  | .mapping content _ _ => findMetaFieldIn content "namespace"
  | _ => ""

/-! ## Base64 (encoding/base64 StdEncoding and URLEncoding)

The codec operates on Go byte strings; a `Char` models one byte, which is
exact exactly when every scalar value is below 256 (`IsByteStr`). -/

def b64StdAlphabet : List Char :=
  "ABCDEFGHIJKLMNOPQRSTUVWXYZabcdefghijklmnopqrstuvwxyz0123456789+/".data

def b64UrlAlphabet : List Char :=
  "ABCDEFGHIJKLMNOPQRSTUVWXYZabcdefghijklmnopqrstuvwxyz0123456789-_".data

def b64Char (alpha : List Char) (i : Nat) : Char := alpha.getD i 'A'

def base64EncodeCore (alpha : List Char) : List Nat → List Char
  | [] => []
  | [b0] => [b64Char alpha (b0 / 4), b64Char alpha (b0 % 4 * 16), '=', '=']
  | [b0, b1] =>
      [b64Char alpha (b0 / 4), b64Char alpha (b0 % 4 * 16 + b1 / 16),
       b64Char alpha (b1 % 16 * 4), '=']
  | b0 :: b1 :: b2 :: rest =>
      b64Char alpha (b0 / 4) :: b64Char alpha (b0 % 4 * 16 + b1 / 16) ::
      b64Char alpha (b1 % 16 * 4 + b2 / 64) :: b64Char alpha (b2 % 64) ::
      base64EncodeCore alpha rest

/-- Position of a character in the standard alphabet. -/
def b64Index (c : Char) : Option Nat :=
  List.findIdx? (fun x => x = c) b64StdAlphabet

/-- Go `StdEncoding.DecodeString` on newline-filtered input: quantums of four
characters, padding only in the final quantum, non-alphabet characters (which
include misplaced padding) are corrupt input. -/
def base64DecodeCore : List Char → Option (List Nat)
  | c0 :: c1 :: c2 :: c3 :: rest =>
      if c2 = '=' ∧ c3 = '=' ∧ rest = [] then do
        let s0 ← b64Index c0
        let s1 ← b64Index c1
        pure [s0 * 4 + s1 / 16]
      else if c3 = '=' ∧ rest = [] then do
        let s0 ← b64Index c0
        let s1 ← b64Index c1
        let s2 ← b64Index c2
        pure [s0 * 4 + s1 / 16, s1 % 16 * 16 + s2 / 4]
      else do
        let s0 ← b64Index c0
        let s1 ← b64Index c1
        let s2 ← b64Index c2
        let s3 ← b64Index c3
        let bs ← base64DecodeCore rest
        pure ((s0 * 4 + s1 / 16) :: (s1 % 16 * 16 + s2 / 4) :: (s2 % 4 * 64 + s3) :: bs)
  | [] => some []
  | _ => none

/-- Go `StdEncoding.EncodeToString([]byte(s))`. -/
def base64Encode (s : String) : String :=
  String.mk (base64EncodeCore b64StdAlphabet (s.data.map Char.toNat))

/-- Go `URLEncoding.EncodeToString([]byte(s))`. -/
def base64UrlEncode (s : String) : String :=
  String.mk (base64EncodeCore b64UrlAlphabet (s.data.map Char.toNat))

def filterCRLF (l : List Char) : List Char :=
  l.filter (fun c => ¬(c = '\r' ∨ c = '\n'))

/-- Go `StdEncoding.DecodeString(s)` followed by `string(decoded)`; the Go
decoder skips carriage returns and newlines. -/
def base64Decode (s : String) : Option String :=
  (base64DecodeCore (filterCRLF s.data)).map (fun bs => String.mk (bs.map Char.ofNat))

/-- The `String` faithfully represents a Go byte string: every character is a
single byte. -/
def IsByteStr (s : String) : Prop := ∀ c ∈ s.data, c.toNat < 256

instance (s : String) : Decidable (IsByteStr s) := by
  unfold IsByteStr; infer_instance

/-! ## Write normalization (`UpdateEmbeddedContent` preamble) -/

/-- Go `strings.ReplaceAll(s, "\r\n", "\n")`, scanning left to right. -/
def replaceCRLF : List Char → List Char
  | [] => []
  | '\r' :: '\n' :: rest => '\n' :: replaceCRLF rest
  | c :: rest => c :: replaceCRLF rest

/-- Go `strings.Split(s, "\n")`. -/
def splitOnNL (l : List Char) : List (List Char) :=
  match l with
  | [] => [[]]
  | '\n' :: rest => [] :: splitOnNL rest
  | c :: rest =>
      match splitOnNL rest with
      | [] => [[c]]
      | line :: more => (c :: line) :: more

/-- Go `strings.TrimRight(line, " \t")`. -/
def trimRightSpaceTab (l : List Char) : List Char :=
  (l.reverse.dropWhile (fun c => c = ' ' ∨ c = '\t')).reverse

/-- Go `strings.TrimSuffix(s, "\n")`: remove at most one trailing newline. -/
def trimOneTrailingNL (l : List Char) : List Char :=
  if l.getLast? = some '\n' then l.dropLast else l

/-- The normalization performed by `UpdateEmbeddedContent`: CRLF to LF,
trailing spaces and tabs stripped per line, one trailing newline removed. -/
def normalizeContent (s : String) : String :=
  String.mk (trimOneTrailingNL
    (List.intercalate ['\n'] ((splitOnNL (replaceCRLF s.data)).map trimRightSpaceTab)))

/-! ## Embedded-content read and write (resolver `ResolveEmbeddedContent` /
`UpdateEmbeddedContent`) -/

/-- Error outcomes of the embedded-content operations; each constructor is one
`fmt.Errorf` site and carries the data interpolated into the message. -/
inductive EmbErr where
  /-- Go `fmt.Errorf("key %s not found", key)`. -/
  | keyNotFound (key : String)
  /-- Go `fmt.Errorf("failed to decode Secret.data[%s]: %w", key, err)`. -/
  | decodeFailed (key : String)
  /-- Go `fmt.Errorf("invalid yaml root")`. -/
  | invalidRoot
  /-- Go decode returning EOF on an empty stream, or
  `fmt.Errorf("invalid yaml document")`. -/
  | eof
  deriving DecidableEq, Repr

/-- Go `searchMap` inside `ResolveEmbeddedContent`: scan the top-level entries
for `sec`; a mapping-valued match is searched for `key`, a non-mapping match
aborts the section. -/
def searchMapSection (rootContent : List (YNode × YNode)) (sec key : String) : Option String :=
  match rootContent with
  | [] => none
  | (k, v) :: rest =>
      if k.valueOf = sec then
        match v with
        | .mapping entries _ _ =>
            match lookupYKey entries key with
            | some val => some val.valueOf
            | none => searchMapSection rest sec key
        | _ => none
      else searchMapSection rest sec key

def resolveEmbeddedContentDoc (root : YNode) (key : String) : Option (Except EmbErr String) :=
  match root with
  | .mapping rootContent _ _ =>
      let kind := findKind root
      if kind = "ConfigMap" then
        match searchMapSection rootContent "data" key with
        | some v => some (.ok v)
        | none =>
            match searchMapSection rootContent "binaryData" key with
            | some v => some (.ok v)
            | none => none
      else if kind = "Secret" then
        match searchMapSection rootContent "stringData" key with
        | some v => some (.ok v)
        | none =>
            match searchMapSection rootContent "data" key with
            | some v =>
                match base64Decode v with
                | some d => some (.ok d)
                | none => some (.error (.decodeFailed key))
            | none => none
      else none
  | _ => none

/-- Go `Resolver.ResolveEmbeddedContent`: first document of the stream that
yields the key wins; `Secret` prefers `stringData` and base64-decodes `data`;
`ConfigMap` prefers `data` and returns `binaryData` verbatim. -/
def ResolveEmbeddedContent (docs : List YNode) (key : String) : Except EmbErr String :=
  match docs with
  | [] => .error (.keyNotFound key)
  | root :: rest =>
      match resolveEmbeddedContentDoc root key with
      | some r => r
      | none => ResolveEmbeddedContent rest key

/-- Write `newVal`/`style` onto a value node.  On a non-scalar node the Go code
mutates the `Value` and `Style` fields, which the serialize/reparse round trip
of the document drops again, so the model keeps the node unchanged. -/
def setScalarValue (v : YNode) (newVal : String) (style : YStyle) : YNode :=
  match v with
  | .scalar _ l c _ => .scalar newVal l c style
  | other => other

def updateEntries (entries : List (YNode × YNode)) (key newVal : String) (style : YStyle) :
    Option (List (YNode × YNode)) :=
  match entries with
  | [] => none
  | (k, v) :: rest =>
      if k.valueOf = key then some ((k, setScalarValue v newVal style) :: rest)
      else (updateEntries rest key newVal style).map (fun r => (k, v) :: r)

/-- Go `updateInSection`: find the first `sec` entry holding `key` and rewrite
its value; a non-mapping `sec` value aborts with failure. -/
def updateRootSection (rootContent : List (YNode × YNode)) (sec key newVal : String)
    (style : YStyle) : Option (List (YNode × YNode)) :=
  match rootContent with
  | [] => none
  | (k, v) :: rest =>
      if k.valueOf = sec then
        match v with
        | .mapping entries ml mc =>
            match updateEntries entries key newVal style with
            | some entries2 => some ((k, .mapping entries2 ml mc) :: rest)
            | none => (updateRootSection rest sec key newVal style).map (fun r => (k, v) :: r)
        | _ => none
      else (updateRootSection rest sec key newVal style).map (fun r => (k, v) :: r)

/-- Go `Resolver.UpdateEmbeddedContent` on the first document of the stream:
normalize the new content, write it into the first applicable section
(`ConfigMap`: `data` then `binaryData`; `Secret`: `stringData` then base64
encoded `data`), and return the whole updated document.  The `.plain` style
models the Go style value `0`. -/
def UpdateEmbeddedContent (docs : List YNode) (key newContent : String) : Except EmbErr YNode :=
  match docs with
  | [] => .error .eof
  | root :: _ =>
      match root with
      | .mapping rootContent rl rc =>
          let kind := findKind root
          let normalized := normalizeContent newContent
          if kind = "ConfigMap" then
            match updateRootSection rootContent "data" key normalized .literal with
            | some c2 => .ok (.mapping c2 rl rc)
            | none =>
                match updateRootSection rootContent "binaryData" key normalized .plain with
                | some c2 => .ok (.mapping c2 rl rc)
                | none => .error (.keyNotFound key)
          else if kind = "Secret" then
            match updateRootSection rootContent "stringData" key normalized .literal with
            | some c2 => .ok (.mapping c2 rl rc)
            | none =>
                match updateRootSection rootContent "data" key (base64Encode normalized) .plain with
                | some c2 => .ok (.mapping c2 rl rc)
                | none => .error (.keyNotFound key)
          else .error (.keyNotFound key)
      | _ => .error .invalidRoot

/-! ## Location helpers (pkg/resolver) -/

/-- Go `comparePosition`. -/
def comparePosition (a b : Position) : Int :=
  if a.line < b.line then -1
  else if a.line > b.line then 1
  else if a.character < b.character then -1
  else if a.character > b.character then 1
  else 0

/-- Go `rangeContainsPosition`: half-open containment. -/
def rangeContainsPosition (r : Range) (p : Position) : Bool :=
  comparePosition r.start p ≤ 0 ∧ comparePosition p r.stop < 0

/-- Go `filterOutLocationAtPosition`: drop results whose location is the query
site itself. -/
def filterOutLocationAtPosition (locs : List Location) (uri : String) (line col : Nat) :
    List Location :=
  let pos : Position := ⟨line, col⟩
  locs.filter (fun loc => ¬(loc.uri = uri ∧ rangeContainsPosition loc.range pos))

/-- Go `calculateOriginRange`: the token span of a node, widened by two columns
for quoted scalars. -/
def calculateOriginRange (node : YNode) : Range :=
  let startCol := node.colOf - 1
  let length := node.valueOf.length +
    (if node.styleOf = .doubleQuoted ∨ node.styleOf = .singleQuoted then 2 else 0)
  ⟨⟨node.lineOf - 1, startCol⟩, ⟨node.lineOf - 1, startCol + length⟩⟩

/-- Location of the stored name token of a resource record. -/
def locOfResourceDef (res : K8sResource) : Location :=
  ⟨"file://" ++ res.filePath,
    ⟨⟨res.line, res.col⟩, ⟨res.line, res.col + res.name.length⟩⟩⟩

/-- Location of one stored outbound reference occurrence. -/
def locOfRef (res : K8sResource) (ref : Reference) : Location :=
  ⟨"file://" ++ res.filePath,
    ⟨⟨ref.line, ref.col⟩, ⟨ref.line, ref.col + ref.name.length⟩⟩⟩

/-- Self link produced by definition resolution when the cursor already sits
on a definition or name token in the current document. -/
def selfLink (uri : String) (origin : Range) (node : YNode) : LocationLink :=
  let r : Range :=
    ⟨⟨node.lineOf - 1, node.colOf - 1⟩, ⟨node.lineOf - 1, node.colOf - 1 + node.valueOf.length⟩⟩
  ⟨some origin, uri, r, r⟩

/-- Link to the stored name token of a resource record. -/
def defLink (origin : Range) (res : K8sResource) : LocationLink :=
  let r : Range := ⟨⟨res.line, res.col⟩, ⟨res.line, res.col + res.name.length⟩⟩
  ⟨some origin, "file://" ++ res.filePath, r, r⟩

/-! ## Store-backed gather operations (pkg/resolver) -/

/-- The occurrence half of `Resolver.findReferences`: one location per stored
outbound reference matching `(kind, name)`, in store order. -/
def occurrenceLocs (store : Store) (kind name : String) : List Location :=
  (store.FindReferences kind name).flatMap (fun res =>
    (res.references.filter (fun ref => ref.kind = kind ∧ ref.name = name)).map (locOfRef res))

/-- Go `Resolver.findReferences`: the stored definition location (when the
record exists) followed by every matching occurrence recorded in the store. -/
def findReferences (store : Store) (kind name namespace_ : String) : List Location :=
  let defLocs :=
    match store.Get kind namespace_ name with
    | some d => [locOfResourceDef d]
    | none => []
  defLocs ++ occurrenceLocs store kind name

/-- Go `Resolver.findLabelReferences`: resources carrying the label followed by
stored `k8s.label` occurrences with the value. -/
def findLabelReferences (store : Store) (key value : String) : List Location :=
  (store.FindByLabel key value).map locOfResourceDef ++
  (store.FindLabelReferences value).flatMap (fun res =>
    (res.references.filter (fun ref => ref.symbol = "k8s.label" ∧ ref.name = value)).map
      (locOfRef res))

/-- Go `Resolver.findWorkloadsByLabel`. -/
def findWorkloadsByLabel (store : Store) (key value : String) (origin : Range) :
    List LocationLink :=
  (store.FindByLabel key value).map (defLink origin)

/-- Go `Resolver.findConfigMapEmbeddedFileUsages`. -/
def findConfigMapEmbeddedFileUsages (store : Store) (namespace_ configMapName key : String) :
    List Location :=
  let ns := if namespace_ = "" then "default" else namespace_
  (store.FindReferences "ConfigMap" configMapName).flatMap (fun res =>
    let resNS := if res.namespace_ = "" then "default" else res.namespace_
    if resNS ≠ ns then []
    else
      (res.references.filter (fun ref =>
        ref.kind = "ConfigMap" ∧ ref.name = configMapName ∧ (ref.key = "" ∨ ref.key = key))).map
        (fun ref =>
          let display := if ref.key ≠ "" then ref.key else ref.name
          ⟨"file://" ++ res.filePath,
            ⟨⟨ref.line, ref.col⟩, ⟨ref.line, ref.col + display.length⟩⟩⟩))

/-- Go `lookupWithDefaultFallback` behaviour inlined in `ResolveDefinition` and
`ResolveHover`: primary lookup, then one retry under the default namespace
unless the target is a `Namespace` or the namespace already was the default. -/
def lookupWithDefaultFallback (store : Store) (targetKind ns name : String) :
    Option K8sResource :=
  match store.Get targetKind ns name with
  | some r => some r
  | none =>
      if targetKind ≠ "Namespace" ∧ ns ≠ "default" then store.Get targetKind "default" name
      else none

/-! ## Pod-spec navigation (pkg/resolver) -/

/-- Go `isVolumeMountNamePath`. -/
def isVolumeMountNamePath (path : List String) : Bool :=
  path.length ≥ 2 ∧ path.getD (path.length - 2) "" = "volumeMounts" ∧
    path.getD (path.length - 1) "" = "name"

/-- Go `isVolumeMountSubPathPath`. -/
def isVolumeMountSubPathPath (path : List String) : Bool :=
  path.length ≥ 2 ∧ path.getD (path.length - 2) "" = "volumeMounts" ∧
    path.getD (path.length - 1) "" = "subPath"

/-- Go `isWorkloadPVCClaimNamePath`. -/
def isWorkloadPVCClaimNamePath (path : List String) : Bool :=
  path.length ≥ 3 ∧ path.getD (path.length - 3) "" = "volumes" ∧
    path.getD (path.length - 2) "" = "persistentVolumeClaim" ∧
    path.getD (path.length - 1) "" = "claimName"

/-- Go `findPodSpecNode` shared logic given the document kind: a bare `Pod`
uses `spec`, the template-bearing workloads use `spec.template.spec`, a
`CronJob` adds `jobTemplate`, and an unknown kind falls back to
`spec.template.spec` when present. -/
def findPodSpecWithKind (root : YNode) (kind : String) : Option YNode :=
  match getMapValueN root "spec" with
  | none => none
  | some spec =>
      if kind = "Pod" then some spec
      else if kind = "Deployment" ∨ kind = "DaemonSet" ∨ kind = "StatefulSet" ∨ kind = "Job" then
        (getMapValueN spec "template").bind (fun tmpl => getMapValueN tmpl "spec")
      else if kind = "CronJob" then
        ((getMapValueN spec "jobTemplate").bind (fun jt => getMapValueN jt "spec")).bind
          (fun jtSpec => (getMapValueN jtSpec "template").bind (fun tmpl => getMapValueN tmpl "spec"))
      else
        match getMapValueN spec "template" with
        | some tmpl => getMapValueN tmpl "spec"
        | none => none

/-- Go resolver `findPodSpecNode`, computing the kind from the document. -/
def findPodSpecNode (root : YNode) : Option YNode :=
  findPodSpecWithKind root (findKind root)

/-- Whether a `volumes[]` entry carries `name: volumeName` (first `name` key,
scalar value). -/
def volumeItemMatches (item : YNode) (volumeName : String) : Bool :=
  match item with
  | .mapping entries _ _ =>
      match lookupYKey entries "name" with
      | some (.scalar v _ _ _) => v = volumeName
      | _ => false
  | _ => false

/-- Go `findVolumeNodeByName`. -/
def findVolumeNodeByName (podSpec : YNode) (volumeName : String) : Option YNode :=
  match getMapValueN podSpec "volumes" with
  | some (.seq items _ _) => items.find? (fun item => volumeItemMatches item volumeName)
  | _ => none

/-- Go `findVolumeNameNodeByName`: the scalar `name` node of the matching
volume entry. -/
def findVolumeNameNodeByName (podSpec : YNode) (volumeName : String) : Option YNode :=
  match findVolumeNodeByName podSpec volumeName with
  | some (.mapping entries _ _) =>
      match lookupYKey entries "name" with
      | some n => if n.isScalar then some n else none
      | none => none
  | _ => none

/-- Go `resolveKeyFromItems` inner loop over the `items[]` entries. -/
def resolveKeyFromItemsList : List YNode → String → Option String
  | [], _ => none
  | item :: rest, subPath =>
      match item with
      | .mapping _ _ _ =>
          match getMappingScalarValueN item "key" with
          | none => resolveKeyFromItemsList rest subPath
          | some keyNode =>
              let fileName :=
                match getMappingScalarValueN item "path" with
                | some pathNode =>
                    if pathNode.valueOf ≠ "" then pathNode.valueOf else keyNode.valueOf
                | none => keyNode.valueOf
              if fileName = subPath then some keyNode.valueOf
              else resolveKeyFromItemsList rest subPath
      | _ => resolveKeyFromItemsList rest subPath

/-- Go `resolveKeyFromItems`: absent or non-sequence `items` maps the subPath
to itself; a sequence requires an entry whose effective filename (the `path`
override when non-empty, else the `key`) equals the subPath. -/
def resolveKeyFromItems (items : Option YNode) (subPath : String) : Option String :=
  match items with
  | none => some subPath
  | some (.seq entries _ _) => resolveKeyFromItemsList entries subPath
  | some _ => some subPath

/-! ## Reading a resource file from disk (resolver `findResourceDataEntryInFile`)

The file system is modelled as a partial map from paths to parsed document
streams; `none` stands for a read or parse failure. -/

def FileSystem : Type := String → Option (List YNode)

/-- Key entry search used by `findResourceDataEntryInFile`: top-level entries
named by one of `secKeys`, mapping-valued, containing a scalar key equal to
`key`. -/
def searchSectionsKV (rootContent : List (YNode × YNode)) (secKeys : List String) (key : String) :
    Option (YNode × YNode) :=
  match rootContent with
  | [] => none
  | (k, v) :: rest =>
      if secKeys.any (fun s => s = k.valueOf) then
        match v with
        | .mapping entries _ _ =>
            match entries.find? (fun kv => kv.1.isScalar ∧ kv.1.valueOf = key) with
            | some kv => some kv
            | none => searchSectionsKV rest secKeys key
        | _ => searchSectionsKV rest secKeys key
      else searchSectionsKV rest secKeys key

def findResourceDataEntryDocs (docs : List YNode) (expectedKind namespace_ resName key : String) :
    Option (YNode × YNode) :=
  match docs with
  | [] => none
  | root :: rest =>
      let next := findResourceDataEntryDocs rest expectedKind namespace_ resName key
      match root with
      | .mapping content _ _ =>
          if findKind root ≠ expectedKind then next
          else if findName root ≠ resName then next
          else
            let resNS := if findNamespace root = "" then "default" else findNamespace root
            let ns := if namespace_ = "" then "default" else namespace_
            if resNS ≠ ns then next
            else if expectedKind = "ConfigMap" then
              match searchSectionsKV content ["data", "binaryData"] key with
              | some kv => some kv
              | none => next
            else if expectedKind = "Secret" then
              match searchSectionsKV content ["stringData"] key with
              | some kv => some kv
              | none =>
                  match searchSectionsKV content ["data"] key with
                  | some kv => some kv
                  | none => next
            else next
      | _ => next

/-- Go `findResourceDataEntryInFile`: re-read the owning file from disk and
locate the key and value nodes of the payload entry.  A read failure or a miss
is `none` (the Go error return is only ever tested against nil). -/
def findResourceDataEntryInFile (fs : FileSystem) (filePath expectedKind namespace_ resName
    key : String) : Option (YNode × YNode) :=
  match fs filePath with
  | none => none
  | some docs => findResourceDataEntryDocs docs expectedKind namespace_ resName key

/-! ## volumeMounts subPath indirection (resolver `findVolumeMountSubPathTargets`) -/

/-- The embedded virtual-file identifier built by the resolver. -/
def embeddedURI (ns resName key sourceURI : String) : String :=
  "k8s-embedded://" ++ ns ++ "/" ++ resName ++ "/" ++ key ++
    "?source=" ++ base64UrlEncode sourceURI ++ "&key=" ++ base64UrlEncode key

/-- The store lookup of `addResourceTarget`: primary namespace, then one retry
under the default namespace. -/
def addTargetStoreLookup (store : Store) (kind ns name : String) : Option K8sResource :=
  match store.Get kind ns name with
  | some r => some r
  | none => if ns ≠ "default" then store.Get kind "default" name else none

/-- Go `addResourceTarget` closure: resolve the resource in the store (with the
default-namespace retry), re-read its file for the payload entry, and produce
the file location followed by the virtual-file location. -/
def addResourceTargetLocs (store : Store) (fs : FileSystem) (ns kind resName key : String) :
    List Location :=
  if resName = "" ∨ key = "" then []
  else
    match addTargetStoreLookup store kind ns resName with
    | none => []
    | some res =>
        match findResourceDataEntryInFile fs res.filePath kind ns resName key with
        | none => []
        | some (keyNode, _) =>
            let keyRange := calculateOriginRange keyNode
            [⟨"file://" ++ res.filePath, keyRange⟩,
             ⟨embeddedURI ns resName key ("file://" ++ res.filePath),
               ⟨⟨0, 0⟩, ⟨0, 0⟩⟩⟩]

/-- Targets contributed by one `configMap` volume source. -/
def cmSourceTargets (store : Store) (fs : FileSystem) (ns subPath : String) (cm : YNode) :
    List Location :=
  match cm with
  | .mapping _ _ _ =>
      let cmName := match getMappingScalarValueN cm "name" with
        | some n => n.valueOf
        | none => ""
      if cmName ≠ "" then
        match resolveKeyFromItems (getMapValueN cm "items") subPath with
        | some key => addResourceTargetLocs store fs ns "ConfigMap" cmName key
        | none => []
      else []
  | _ => []

/-- Targets contributed by one `secret` volume source; `nameField` is
`secretName` for a direct secret volume and `name` for a projected source. -/
def secSourceTargets (store : Store) (fs : FileSystem) (ns subPath nameField : String)
    (sec : YNode) : List Location :=
  match sec with
  | .mapping _ _ _ =>
      let secName := match getMappingScalarValueN sec nameField with
        | some n => n.valueOf
        | none => ""
      if secName ≠ "" then
        match resolveKeyFromItems (getMapValueN sec "items") subPath with
        | some key => addResourceTargetLocs store fs ns "Secret" secName key
        | none => []
      else []
  | _ => []

/-- Targets contributed by the `projected.sources[]` list. -/
def projectedTargets (store : Store) (fs : FileSystem) (ns subPath : String) (vol : YNode) :
    List Location :=
  match getMapValueN vol "projected" with
  | some projected =>
      match projected with
      | .mapping _ _ _ =>
          match getMapValueN projected "sources" with
          | some (.seq sources _ _) =>
              sources.flatMap (fun src =>
                match src with
                | .mapping _ _ _ =>
                    (match getMapValueN src "configMap" with
                     | some cm2 => cmSourceTargets store fs ns subPath cm2
                     | none => []) ++
                    (match getMapValueN src "secret" with
                     | some sec2 => secSourceTargets store fs ns subPath "name" sec2
                     | none => [])
                | _ => [])
          | _ => []
      | _ => []
  | none => []

/-- Go `Resolver.findVolumeMountSubPathTargets`: follow the owning mount name
to its volume, resolve the subPath through the volume source items, and emit
the payload-key file location plus the virtual-file location for each source
that resolves. -/
def findVolumeMountSubPathTargets (store : Store) (fs : FileSystem) (root : YNode)
    (volumeMountNode : Option YNode) (subPath : String) : List Location :=
  match volumeMountNode with
  | some vm =>
      match vm with
      | .mapping _ _ _ =>
          match getMappingScalarValueN vm "name" with
          | none => []
          | some mountNameNode =>
              match findPodSpecNode root with
              | none => []
              | some podSpec =>
                  match findVolumeNodeByName podSpec mountNameNode.valueOf with
                  | none => []
                  | some vol =>
                      let ns0 := findNamespace root
                      let ns := if ns0 = "" then "default" else ns0
                      (match getMapValueN vol "configMap" with
                       | some cm => cmSourceTargets store fs ns subPath cm
                       | none => []) ++
                      (match getMapValueN vol "secret" with
                       | some sec => secSourceTargets store fs ns subPath "secretName" sec
                       | none => []) ++
                      projectedTargets store fs ns subPath vol
      | _ => []
  | none => []

/-! ## PVC claim usages (resolver `findPVCClaimMountUsagesInDocument`) -/

/-- Go `findVolumeNameNodesForPVCClaim`: scalar `name` nodes of `volumes[]`
entries whose `persistentVolumeClaim.claimName` equals the claim.  The Go
`switch` without `break` keeps the last `name` and `persistentVolumeClaim`
entries; the `claimName` scan breaks at the first hit. -/
def findVolumeNameNodesForPVCClaim (podSpec : YNode) (claimName : String) : List YNode :=
  match getMapValueN podSpec "volumes" with
  | some (.seq items _ _) =>
      items.flatMap (fun item =>
        match item with
        | .mapping entries _ _ =>
            let nameNode := lookupYKeyLast entries "name"
            match lookupYKeyLast entries "persistentVolumeClaim" with
            | some (.mapping pvcEntries _ _) =>
                match lookupYKey pvcEntries "claimName" with
                | some claimNode =>
                    if claimNode.isScalar ∧ claimNode.valueOf = claimName then
                      match nameNode with
                      | some n => if n.isScalar then [n] else []
                      | none => []
                    else []
                | none => []
            | _ => []
        | _ => [])
  | _ => []

/-- Go `collectFromContainers` inside `findAllVolumeMountNameNodes`. -/
def collectMountNameNodes (containers : Option YNode) : List YNode :=
  match containers with
  | some (.seq cs _ _) =>
      cs.flatMap (fun c =>
        match c with
        | .mapping centries _ _ =>
            match lookupYKey centries "volumeMounts" with
            | some (.seq vms _ _) =>
                vms.flatMap (fun vm =>
                  match vm with
                  | .mapping ventries _ _ =>
                      match lookupYKey ventries "name" with
                      | some n => [n]
                      | none => []
                  | _ => [])
            | _ => []
        | _ => [])
  | _ => []

/-- Go `findAllVolumeMountNameNodes`: mount name nodes of `containers[]` then
`initContainers[]` (last top-level occurrence of each list wins). -/
def findAllVolumeMountNameNodes (podSpec : YNode) : List YNode :=
  match podSpec with
  | .mapping entries _ _ =>
      collectMountNameNodes (lookupYKeyLast entries "containers") ++
      collectMountNameNodes (lookupYKeyLast entries "initContainers")
  | _ => []

/-- Go `findPVCClaimMountUsagesInDocument`: the matching volume name tokens
followed by every volume mount token naming one of those volumes. -/
def findPVCClaimMountUsagesInDocument (root : YNode) (uri : String) (claimName : String) :
    List Location :=
  match findPodSpecNode root with
  | none => []
  | some podSpec =>
      let volumeNameNodes := findVolumeNameNodesForPVCClaim podSpec claimName
      if volumeNameNodes.isEmpty then []
      else
        let volumeNames := (volumeNameNodes.filter (fun n => n.isScalar)).map YNode.valueOf
        let defLocs := (volumeNameNodes.filter (fun n => n.isScalar)).map (fun n =>
          (⟨uri, ⟨⟨n.lineOf - 1, n.colOf - 1⟩,
            ⟨n.lineOf - 1, n.colOf - 1 + n.valueOf.length⟩⟩⟩ : Location))
        let mountLocs := ((findAllVolumeMountNameNodes podSpec).filter (fun n =>
            n.isScalar ∧ volumeNames.any (fun v => v = n.valueOf))).map (fun n =>
          (⟨uri, ⟨⟨n.lineOf - 1, n.colOf - 1⟩,
            ⟨n.lineOf - 1, n.colOf - 1 + n.valueOf.length⟩⟩⟩ : Location))
        defLocs ++ mountLocs

/-! ## Reference resolution branch chain (resolver `ResolveReferences`)

Each branch mirrors one early-return block of the Go function; `none` means
the block fell through to the next one.  Branches are evaluated per document,
and a document in which the point query hits a node but no branch returns
falls through to the next document of the stream. -/

/-- Last path segment (`path[len(path)-1]` in Go, only evaluated on non-empty
matched paths). -/
def lastSeg (path : List String) : String :=
  match path.getLast? with
  | some s => s
  | none => ""

/-- Branch: `volumeMounts[].subPath` indirection; returns without the query
site filter. -/
def refsBranchSubPath (store : Store) (fs : FileSystem) (root : YNode) (node : YNode)
    (parent : Option YNode) (path : List String) : Option (List Location) :=
  if isVolumeMountSubPathPath path then
    let locs := findVolumeMountSubPathTargets store fs root parent node.valueOf
    if locs.isEmpty then none else some locs
  else none

/-- The value node paired with the key node under the cursor (Go compares the
node pointers; the model compares the nodes structurally). -/
def valNodeOfKey (parent : Option YNode) (node : YNode) : Option YNode :=
  match parent with
  | some (.mapping entries _ _) =>
      (entries.find? (fun kv => ynodeBeq kv.1 node)).map (fun kv => kv.2)
  | _ => none

/-- Shared guard of the ConfigMap embedded-file branches: a `ConfigMap`
document, a `data`/`binaryData` key with a block-literal or folded value, and
a dotted key. -/
def blockStyleVal : Option YNode → Bool
  | some v => v.styleOf = .literal ∨ v.styleOf = .folded
  | none => false

def cmEmbeddedKeyGuard (root : YNode) (node : YNode) (parent : Option YNode)
    (path : List String) : Bool :=
  findKind root = "ConfigMap" ∧ path.length ≥ 2 ∧
  (path.getD (path.length - 2) "" = "data" ∨ path.getD (path.length - 2) "" = "binaryData") ∧
  blockStyleVal (valNodeOfKey parent node) ∧ strContainsChar node.valueOf '.'

/-- Branch: usages of a ConfigMap payload key under the cursor. -/
def refsBranchCMKey (store : Store) (root : YNode) (node : YNode) (parent : Option YNode)
    (path : List String) (uri : String) (line col : Nat) : Option (List Location) :=
  if cmEmbeddedKeyGuard root node parent path then
    let ns0 := findNamespace root
    let ns := if ns0 = "" then "default" else ns0
    let cmName0 := findName root
    let cmName := if cmName0 = "" then "configmap" else cmName0
    some (filterOutLocationAtPosition
      (findConfigMapEmbeddedFileUsages store ns cmName node.valueOf) uri line col)
  else none

/-- Branch: `volumes[].persistentVolumeClaim.claimName` mount usages. -/
def refsBranchPVC (root : YNode) (node : YNode) (path : List String) (uri : String)
    (line col : Nat) : Option (List Location) :=
  if isWorkloadPVCClaimNamePath path then
    let locs := findPVCClaimMountUsagesInDocument root uri node.valueOf
    if locs.isEmpty then none
    else some (filterOutLocationAtPosition locs uri line col)
  else none

/-- Branch: cursor on `metadata.name`, gathering the definition plus every
stored occurrence of the resource. -/
def refsBranchMetaName (store : Store) (root : YNode) (path : List String) (uri : String)
    (line col : Nat) : Option (List Location) :=
  if path = ["metadata", "name"] then
    let kind := findKind root
    let name := findName root
    let ns := findNamespace root
    if kind ≠ "" ∧ name ≠ "" then
      some (filterOutLocationAtPosition (findReferences store kind name ns) uri line col)
    else none
  else none

/-- Branch: cursor on `metadata.namespace`, treated as a `Namespace`
reference. -/
def refsBranchMetaNS (store : Store) (node : YNode) (path : List String) (uri : String)
    (line col : Nat) : Option (List Location) :=
  if path = ["metadata", "namespace"] then
    some (filterOutLocationAtPosition (findReferences store "Namespace" node.valueOf "")
      uri line col)
  else none

def refsSymbolDefsLoop (store : Store) (kind : String) (node : YNode) (path : List String)
    (uri : String) (line col : Nat) (symName : String) :
    List SymbolDefinition → Option (List Location)
  | [] => none
  | d :: rest =>
      let m := matchPath path d.path ∨ (symName = "k8s.label" ∧ matchPathPref path d.path)
      if contains d.kinds kind ∧ m ∧ symName = "k8s.label" then
        some (filterOutLocationAtPosition
          (findLabelReferences store (lastSeg path) node.valueOf) uri line col)
      else refsSymbolDefsLoop store kind node path uri line col symName rest

/-- Branch: cursor on a symbol definition site; only the `k8s.label` symbol
class produces a result here. -/
def refsBranchSymbols (store : Store) (kind : String) (node : YNode) (path : List String)
    (uri : String) (line col : Nat) : List Symbol → Option (List Location)
  | [] => none
  | sym :: rest =>
      match refsSymbolDefsLoop store kind node path uri line col sym.name sym.definitions with
      | some r => some r
      | none => refsBranchSymbols store kind node path uri line col rest

/-- Branch: cursor on a configured reference site. -/
def refsBranchRules (store : Store) (root : YNode) (kind : String) (node : YNode)
    (path : List String) (uri : String) (line col : Nat) :
    List ConfigReference → Option (List Location)
  | [] => none
  | rule :: rest =>
      let m := matchPath path rule.matchRule.path ∨
        (rule.symbol = "k8s.label" ∧ matchPathPref path rule.matchRule.path)
      if matchesKind rule.matchRule.kinds kind ∧ m then
        if rule.symbol = "k8s.resource.name" then
          let targetNamespace := if rule.targetKind = "Namespace" then "" else findNamespace root
          some (filterOutLocationAtPosition
            (findReferences store rule.targetKind node.valueOf targetNamespace) uri line col)
        else if rule.symbol = "k8s.label" then
          some (filterOutLocationAtPosition
            (findLabelReferences store (lastSeg path) node.valueOf) uri line col)
        else refsBranchRules store root kind node path uri line col rest
      else refsBranchRules store root kind node path uri line col rest

/-- One document step of `ResolveReferences`: point query plus the branch
chain. -/
def resolveReferencesDoc (cfg : Config) (store : Store) (fs : FileSystem) (root : YNode)
    (uri : String) (line col : Nat) : Option (List Location) :=
  match findNodeAt root (line + 1) (col + 1) with
  | none => none
  | some (node, parent, path) =>
      (refsBranchSubPath store fs root node parent path).orElse (fun _ =>
      (refsBranchCMKey store root node parent path uri line col).orElse (fun _ =>
      (refsBranchPVC root node path uri line col).orElse (fun _ =>
      (refsBranchMetaName store root path uri line col).orElse (fun _ =>
      (refsBranchMetaNS store node path uri line col).orElse (fun _ =>
      (refsBranchSymbols store (findKind root) node path uri line col cfg.symbols).orElse
        (fun _ =>
      refsBranchRules store root (findKind root) node path uri line col cfg.references))))))

def resolveReferencesDocs (cfg : Config) (store : Store) (fs : FileSystem) (docs : List YNode)
    (uri : String) (line col : Nat) : List Location :=
  match docs with
  | [] => []
  | root :: rest =>
      match resolveReferencesDoc cfg store fs root uri line col with
      | some locs => locs
      | none => resolveReferencesDocs cfg store fs rest uri line col

/-- Go `Resolver.ResolveReferences(docContent, uri, line, col)` on the parsed
stream.  Every post-parse Go path returns a nil error, so the embedding
returns the location list directly. -/
def ResolveReferences (cfg : Config) (store : Store) (fs : FileSystem) (docs : List YNode)
    (uri : String) (line col : Nat) : List Location :=
  resolveReferencesDocs cfg store fs docs uri line col

/-! ## Definition resolution branch chain (resolver `ResolveDefinition`) -/

/-- Branch: `volumeMounts[].name` resolved to the matching `volumes[].name`
token in the same document. -/
def defBranchVolumeMountName (root : YNode) (node : YNode) (path : List String) (uri : String)
    (origin : Range) : Option (List LocationLink) :=
  if isVolumeMountNamePath path then
    match findPodSpecNode root with
    | some podSpec =>
        match findVolumeNameNodeByName podSpec node.valueOf with
        | some volNameNode => some [selfLink uri origin volNameNode]
        | none => none
    | none => none
  else none

/-- Branch: ConfigMap payload key treated as an embedded file definition,
yielding a virtual-file link. -/
def defBranchCMEmbedded (root : YNode) (node : YNode) (parent : Option YNode)
    (path : List String) (uri : String) (origin : Range) : Option (List LocationLink) :=
  if cmEmbeddedKeyGuard root node parent path then
    let ns0 := findNamespace root
    let ns := if ns0 = "" then "default" else ns0
    let cmName0 := findName root
    let cmName := if cmName0 = "" then "configmap" else cmName0
    let target := embeddedURI ns cmName node.valueOf uri
    some [⟨some origin, target, ⟨⟨0, 0⟩, ⟨0, 0⟩⟩, ⟨⟨0, 0⟩, ⟨0, 0⟩⟩⟩]
  else none

def defSymbolsLoop (kind : String) (node : YNode) (path : List String) (uri : String)
    (origin : Range) : List (Symbol × SymbolDefinition) → Option (List LocationLink)
  | [] => none
  | (_, d) :: rest =>
      if contains d.kinds kind ∧ matchPath path d.path then some [selfLink uri origin node]
      else defSymbolsLoop kind node path uri origin rest

/-- All `(symbol, definition)` pairs in declaration order. -/
def symbolDefPairs (symbols : List Symbol) : List (Symbol × SymbolDefinition) :=
  symbols.flatMap (fun sym => sym.definitions.map (fun d => (sym, d)))

/-- Branch: the cursor already sits on a definition site, so the result is a
self link. -/
def defBranchSymbols (cfg : Config) (kind : String) (node : YNode) (path : List String)
    (uri : String) (origin : Range) : Option (List LocationLink) :=
  defSymbolsLoop kind node path uri origin (symbolDefPairs cfg.symbols)

/-- Go sibling-namespace override: the first `namespace` entry of the mapping
holding the reference value. -/
def siblingNamespace (parent : Option YNode) : Option String :=
  match parent with
  | some (.mapping entries _ _) => (lookupYKey entries "namespace").map YNode.valueOf
  | _ => none

def defRulesLoop (store : Store) (root : YNode) (kind : String) (node : YNode)
    (parent : Option YNode) (path : List String) (origin : Range) :
    List ConfigReference → Option (List LocationLink)
  | [] => none
  | rule :: rest =>
      let isMatch :=
        if rule.symbol = "k8s.label" then matchPathPref path rule.matchRule.path
        else matchPath path rule.matchRule.path
      if matchesKind rule.matchRule.kinds kind ∧ isMatch then
        if rule.symbol = "k8s.label" then
          some (findWorkloadsByLabel store (lastSeg path) node.valueOf origin)
        else if rule.symbol = "k8s.resource.name" then
          if rule.targetKind ≠ "" then
            let ns1 :=
              match siblingNamespace parent with
              | some s => s
              | none => findNamespace root
            let ns := if rule.targetKind = "Namespace" then "" else ns1
            match lookupWithDefaultFallback store rule.targetKind ns node.valueOf with
            | some res => some [defLink origin res]
            | none => defRulesLoop store root kind node parent path origin rest
          else defRulesLoop store root kind node parent path origin rest
        else defRulesLoop store root kind node parent path origin rest
      else defRulesLoop store root kind node parent path origin rest

/-- Branch: configured reference rules; a label match fans out to every
labelled resource, a resource-name match performs the store lookup with the
sibling-namespace override and the default-namespace retry. -/
def defBranchRules (cfg : Config) (store : Store) (root : YNode) (kind : String) (node : YNode)
    (parent : Option YNode) (path : List String) (origin : Range) :
    Option (List LocationLink) :=
  defRulesLoop store root kind node parent path origin cfg.references

/-- One document step of `ResolveDefinition`: the first document whose point
query hits a node decides the result (the Go loop returns inside the
`targetNode != nil` block on every path). -/
def resolveDefinitionDoc (cfg : Config) (store : Store) (root : YNode) (uri : String)
    (line col : Nat) : Option (List LocationLink) :=
  match findNodeAt root (line + 1) (col + 1) with
  | none => none
  | some (node, parent, path) =>
      let origin := calculateOriginRange node
      let kind := findKind root
      let chain :=
        (defBranchVolumeMountName root node path uri origin).orElse (fun _ =>
        (defBranchCMEmbedded root node parent path uri origin).orElse (fun _ =>
        (defBranchSymbols cfg kind node path uri origin).orElse (fun _ =>
        defBranchRules cfg store root kind node parent path origin)))
      some (chain.getD [])

def resolveDefinitionDocs (cfg : Config) (store : Store) (docs : List YNode) (uri : String)
    (line col : Nat) : List LocationLink :=
  match docs with
  | [] => []
  | root :: rest =>
      match resolveDefinitionDoc cfg store root uri line col with
      | some links => links
      | none => resolveDefinitionDocs cfg store rest uri line col

/-- Go `Resolver.ResolveDefinition(docContent, uri, line, col)` on the parsed
stream.  Every post-parse Go path returns a nil error, so the embedding
returns the link list directly. -/
def ResolveDefinition (cfg : Config) (store : Store) (docs : List YNode) (uri : String)
    (line col : Nat) : List LocationLink :=
  resolveDefinitionDocs cfg store docs uri line col

/-! ## Indexer (pkg/indexer) -/

mutual

/-- Go `Indexer.traverse`: pre-order visits of every node with its structural
path; mapping keys extend the path, sequence elements share it.  The
`DocumentNode` wrapper visit carries the empty path and matches no rule, so it
is not represented. -/
def traverseVisits (n : YNode) (path : List String) : List (YNode × List String) :=
  (n, path) ::
    (match n with
     | .scalar _ _ _ _ => []
     | .mapping content _ _ => traverseVisitsPairs content path
     | .seq items _ _ => traverseVisitsList items path)

def traverseVisitsPairs (ps : List (YNode × YNode)) (path : List String) :
    List (YNode × List String) :=
  match ps with
  | [] => []
  | (k, v) :: rest => traverseVisits v (path ++ [k.valueOf]) ++ traverseVisitsPairs rest path

def traverseVisitsList (items : List YNode) (path : List String) :
    List (YNode × List String) :=
  match items with
  | [] => []
  | item :: rest => traverseVisits item path ++ traverseVisitsList rest path

end

/-- One symbol-definition check of the indexing visitor: a
`k8s.resource.name` match captures the name token, a `k8s.label` match on a
mapping node absorbs the label entries. -/
def applySymbolDef (kind : String) (res : K8sResource) (n : YNode) (p : List String)
    (symName : String) (d : SymbolDefinition) : K8sResource :=
  if contains d.kinds kind ∧ matchPath p d.path then
    if symName = "k8s.resource.name" then
      { res with name := n.valueOf, line := n.lineOf - 1, col := n.colOf - 1 }
    else if symName = "k8s.label" then
      match n with
      | .mapping entries _ _ =>
          { res with labels := entries.foldl (fun ls kv =>
              labelsSet ls kv.1.valueOf kv.2.valueOf) res.labels }
      | _ => res
    else res
  else res

/-- One reference-rule check of the indexing visitor: a `k8s.label` match on a
mapping records one reference per entry value, any other match records a
single scalar reference. -/
def applyRefRule (kind : String) (res : K8sResource) (n : YNode) (p : List String)
    (rule : ConfigReference) : K8sResource :=
  if matchesKind rule.matchRule.kinds kind ∧ matchPath p rule.matchRule.path then
    match n with
    | .mapping entries _ _ =>
        if rule.symbol = "k8s.label" then
          { res with references := res.references ++ entries.map (fun kv =>
              { kind := rule.targetKind, name := kv.2.valueOf, namespace_ := "",
                symbol := rule.symbol, key := "",
                line := kv.2.lineOf - 1, col := kv.2.colOf - 1 }) }
        else
          { res with references := res.references ++
              [{ kind := rule.targetKind, name := n.valueOf, namespace_ := "",
                 symbol := rule.symbol, key := "",
                 line := n.lineOf - 1, col := n.colOf - 1 }] }
    | _ =>
        { res with references := res.references ++
            [{ kind := rule.targetKind, name := n.valueOf, namespace_ := "",
               symbol := rule.symbol, key := "",
               line := n.lineOf - 1, col := n.colOf - 1 }] }
  else res

/-- The visitor body of `parseK8sResource`: symbol definitions, the
`metadata.namespace` capture, then the reference rules. -/
def visitStep (cfg : Config) (kind : String) (res : K8sResource)
    (visit : YNode × List String) : K8sResource :=
  let n := visit.1
  let p := visit.2
  let res1 := cfg.symbols.foldl (fun r sym =>
    sym.definitions.foldl (fun r2 d => applySymbolDef kind r2 n p sym.name d) r) res
  let res2 := if matchPath p "metadata.namespace" then { res1 with namespace_ := n.valueOf }
    else res1
  cfg.references.foldl (fun r rule => applyRefRule kind r n p rule) res2

/-- Go `normalizeNamespace`. -/
def normalizeNamespace (ns : String) : String :=
  if ns = "" then "default" else ns

/-- Go `asSequence`. -/
def asSequence : Option YNode → List YNode
  | some (.seq items _ _) => items
  | _ => []

def mkCMRef (ns : String) (name : String) (key : String) (node : YNode) : Reference :=
  { kind := "ConfigMap", name := name, namespace_ := ns, symbol := "", key := key,
    line := node.lineOf - 1, col := node.colOf - 1 }

/-- References contributed by one `configMap` mapping (name plus item keys),
shared by the volume and projected-source extraction. -/
def cmMappingRefs (ns : String) (cm : Option YNode) : List Reference :=
  match cm with
  | some cmNode =>
      match getMapValueN cmNode "name" with
      | some nameNode =>
          if nameNode.isScalar then
            mkCMRef ns nameNode.valueOf "" nameNode ::
            (asSequence (getMapValueN cmNode "items")).flatMap (fun item =>
              match getMapValueN item "key" with
              | some keyNode =>
                  if keyNode.isScalar then [mkCMRef ns nameNode.valueOf keyNode.valueOf keyNode]
                  else []
              | none => [])
          else []
      | none => []
  | none => []

/-- Go `extractConfigMapReferences`: hardcoded sibling-field correlation for
pod-spec-bearing kinds — volume ConfigMap references (whole and per item key),
projected sources, `envFrom.configMapRef` and `env.valueFrom.configMapKeyRef`. -/
def extractConfigMapReferences (root : YNode) (kind : String) (resourceNamespace : String) :
    List Reference :=
  if ¬(kind = "Pod" ∨ kind = "Deployment" ∨ kind = "StatefulSet" ∨ kind = "DaemonSet" ∨
       kind = "Job" ∨ kind = "CronJob") then []
  else
    match findPodSpecWithKind root kind with
    | none => []
    | some podSpec =>
        let volRefs := (asSequence (getMapValueN podSpec "volumes")).flatMap (fun vol =>
          cmMappingRefs resourceNamespace (getMapValueN vol "configMap") ++
          (asSequence ((getMapValueN vol "projected").bind
              (fun p => getMapValueN p "sources"))).flatMap (fun src =>
            cmMappingRefs resourceNamespace (getMapValueN src "configMap")))
        let containerRefs := (asSequence (getMapValueN podSpec "containers")).flatMap
          (fun container =>
            (asSequence (getMapValueN container "envFrom")).flatMap (fun envFromItem =>
              match (getMapValueN envFromItem "configMapRef").bind
                  (fun r => getMapValueN r "name") with
              | some nameNode =>
                  if nameNode.isScalar then
                    [mkCMRef resourceNamespace nameNode.valueOf "" nameNode]
                  else []
              | none => []) ++
            (asSequence (getMapValueN container "env")).flatMap (fun envItem =>
              let cmKeyRef := (getMapValueN envItem "valueFrom").bind
                (fun vf => getMapValueN vf "configMapKeyRef")
              let nameNode := cmKeyRef.bind (fun r => getMapValueN r "name")
              let keyNode := cmKeyRef.bind (fun r => getMapValueN r "key")
              (match nameNode with
               | some nn =>
                   if nn.isScalar then [mkCMRef resourceNamespace nn.valueOf "" nn] else []
               | none => []) ++
              (match nameNode, keyNode with
               | some nn, some kn =>
                   if nn.isScalar ∧ kn.isScalar then
                     [mkCMRef resourceNamespace nn.valueOf kn.valueOf kn]
                   else []
               | _, _ => [])))
        volRefs ++ containerRefs

/-- Go `dedupeReferences`: first occurrence wins under the composite key. -/
def dedupeKey (r : Reference) : String :=
  r.kind ++ "|" ++ r.namespace_ ++ "|" ++ r.name ++ "|" ++ r.key ++ "|" ++ r.symbol ++ "|" ++
    toString r.line ++ "|" ++ toString r.col

def dedupeReferencesGo (seen : List String) : List Reference → List Reference
  | [] => []
  | r :: rest =>
      if seen.any (fun s => s = dedupeKey r) then dedupeReferencesGo seen rest
      else r :: dedupeReferencesGo (dedupeKey r :: seen) rest

def dedupeReferences (refs : List Reference) : List Reference :=
  dedupeReferencesGo [] refs

/-- Go `Indexer.registerKind` applied to one symbol: skip when the kind is
already present in some definition, else append it to the first
`metadata.name` definition, else create a new definition. -/
def appendKindToFirstMetaName : List SymbolDefinition → String → List SymbolDefinition
  | [], _ => []
  | d :: rest, kind =>
      if d.path = "metadata.name" then { d with kinds := d.kinds ++ [kind] } :: rest
      else d :: appendKindToFirstMetaName rest kind

def registerKindInSymbol (sym : Symbol) (kind : String) : Symbol :=
  if sym.definitions.any (fun d => contains d.kinds kind) then sym
  else if sym.definitions.any (fun d => d.path = "metadata.name") then
    { sym with definitions := appendKindToFirstMetaName sym.definitions kind }
  else
    { sym with definitions := sym.definitions ++ [⟨[kind], "metadata.name"⟩] }

def registerKindSymbols : List Symbol → String → List Symbol
  | [], _ => []
  | sym :: rest, kind =>
      if sym.name = "k8s.resource.name" then registerKindInSymbol sym kind :: rest
      else sym :: registerKindSymbols rest kind

/-- Go `Indexer.registerKind`: mutate the first `k8s.resource.name` symbol rule
under the write lock. -/
def registerKind (cfg : Config) (kind : String) : Config :=
  { cfg with symbols := registerKindSymbols cfg.symbols kind }

/-- Go `Indexer.handleCRD`: extract `spec.names.kind` and register it. -/
def handleCRD (cfg : Config) (root : YNode) : Config :=
  match root with
  | .mapping content _ _ =>
      match lookupYKey content "spec" with
      | some (.mapping specEntries _ _) =>
          match lookupYKey specEntries "names" with
          | some (.mapping nameEntries _ _) =>
              match lookupYKey nameEntries "kind" with
              | some kindNode =>
                  if kindNode.valueOf ≠ "" then registerKind cfg kindNode.valueOf else cfg
              | none => cfg
          | _ => cfg
      | _ => cfg
  | _ => cfg

/-- Last value of a top-level scalar field, mirroring the Go extraction loop
that overwrites on every occurrence. -/
def lastTopField (content : List (YNode × YNode)) (field : String) : String :=
  content.foldl (fun acc kv => if kv.1.valueOf = field then kv.2.valueOf else acc) ""

/-- The final gate of `parseK8sResource`: keep the record only when its
resolved name is non-empty. -/
def keepNamed (res : K8sResource) (cfg : Config) : Option K8sResource × Config :=
  if res.name ≠ "" then (some res, cfg) else (none, cfg)

/-- Go `Indexer.parseK8sResource`: reject non-mapping roots and kindless
documents, register a CRD kind, run the rule visitor, append the hardcoded
ConfigMap references, dedupe, and keep the record only when the resolved name
is non-empty.  Returns the possibly-updated config alongside. -/
def parseK8sResource (cfg : Config) (root : YNode) (path : String) :
    Option K8sResource × Config :=
  match root with
  | .mapping content _ _ =>
      let kind := lastTopField content "kind"
      if kind = "" then (none, cfg)
      else
        let cfg2 := if kind = "CustomResourceDefinition" then handleCRD cfg root else cfg
        let res0 : K8sResource :=
          { apiVersion := lastTopField content "apiVersion", kind := kind, name := "",
            namespace_ := "", labels := [], references := [], filePath := path,
            line := 0, col := 0 }
        let res1 := (traverseVisits root []).foldl (visitStep cfg2 kind) res0
        let refs2 := dedupeReferences (res1.references ++
          extractConfigMapReferences root kind (normalizeNamespace res1.namespace_))
        keepNamed { res1 with references := refs2 } cfg2
  | _ => (none, cfg)

/-- Go `Indexer.IndexContent` / `indexReader` on a parsed stream: parse each
sub-document, store the ones with a name, and report whether anything was
indexed.  The config is threaded because CRD registration mutates it. -/
def IndexContent (cfg : Config) (store : Store) (docs : List YNode) (path : String) :
    Config × Store × Bool :=
  match docs with
  | [] => (cfg, store, false)
  | root :: rest =>
      match parseK8sResource cfg root path with
      | (some res, c2) =>
          let r := IndexContent c2 (store.Add res) rest path
          (r.1, r.2.1, true)
      | (none, c2) => IndexContent c2 store rest path

/-! ## Observation functions and specification-side definitions

These definitions restate parts of the specification text (not the source) and
are compared with the source-derived functions above, or observe a component
of a result for use in theorem statements. -/

def YNode.isSeq : YNode → Bool
  | .seq _ _ _ => true
  | _ => false

/-- The value node that `updateInSection` would rewrite: same traversal as
`updateRootSection`, returning the located node. -/
def updateTargetNode (content : List (YNode × YNode)) (sec key : String) : Option YNode :=
  match content with
  | [] => none
  | (k, v) :: rest =>
      if k.valueOf = sec then
        match v with
        | .mapping entries _ _ =>
            match lookupYKey entries key with
            | some v0 => some v0
            | none => updateTargetNode rest sec key
        | _ => none
      else updateTargetNode rest sec key

/-- Observation: value text and style of the payload entry a write targets. -/
def sectionEntryValue (root : YNode) (sec key : String) : Option (String × YStyle) :=
  match root with
  | .mapping content _ _ =>
      (updateTargetNode content sec key).map (fun v => (v.valueOf, v.styleOf))
  | _ => none

/-- Modelled from the spec: the entries of a `volumeMounts` items list (a
sequence node has its elements, anything else has none). -/
def specItemEntries : YNode → List YNode
  | .seq es _ _ => es
  | _ => []

/-- Modelled from the spec: the key of an items entry. -/
def specEntryKey (e : YNode) : Option String :=
  (getMappingScalarValueN e "key").map YNode.valueOf

/-- Modelled from the spec: the effective filename of an items entry — its
`path` override when non-empty, otherwise its `key`. -/
def specEffectiveFilename (e : YNode) : Option String :=
  match specEntryKey e with
  | none => none
  | some k =>
      match getMappingScalarValueN e "path" with
      | some p => if p.valueOf ≠ "" then some p.valueOf else some k
      | none => some k

/-- Modelled from the spec: look the subPath up among the entries by effective
filename and answer the matching entry key. -/
def specItemsLookup (es : List YNode) (sub : String) : Option String :=
  (es.find? (fun e => specEffectiveFilename e == some sub)).bind specEntryKey

/-- The claim as stated for a present `items` value: any produced key comes
from an entry whose effective filename equals the subPath. -/
def specC4ItemsProp : Prop :=
  ∀ (items : YNode) (subPath k : String),
    resolveKeyFromItems (some items) subPath = some k →
    ∃ e ∈ specItemEntries items, specEffectiveFilename e = some subPath ∧ specEntryKey e = some k

/-- The field update performed by a `k8s.resource.name` symbol match in the
indexing visitor. -/
def setNameFromNode (r : K8sResource) (node : YNode) : K8sResource :=
  { r with name := node.valueOf, line := node.lineOf - 1, col := node.colOf - 1 }

/-- Canonical instance document of kind `K` named `n`:
`kind: K` / `metadata:` / `  name: n`. -/
def instanceDoc (K n : String) : YNode :=
  .mapping [
    (.scalar "kind" 1 1 .plain, .scalar K 1 7 .plain),
    (.scalar "metadata" 2 1 .plain,
      .mapping [(.scalar "name" 3 3 .plain, .scalar n 3 9 .plain)] 3 3)
  ] 1 1

/-! ## Concrete material for counterexamples and witnesses -/

def sc (v : String) (l c : Nat) : YNode := .scalar v l c .plain

def cfgEmpty : Config := ⟨0, [], []⟩

def fsEmpty : FileSystem := fun _ => none

/-- A Service record indexed at `/a.yaml`, name token at 0-based (3,8). -/
def svcResC1 : K8sResource :=
  { apiVersion := "v1", kind := "Service", name := "svc", namespace_ := "",
    labels := [], references := [], filePath := "/a.yaml", line := 3, col := 8 }

/-- A Deployment holding one occurrence referencing the Service. -/
def appResC1 : K8sResource :=
  { apiVersion := "apps/v1", kind := "Deployment", name := "app", namespace_ := "default",
    labels := [],
    references := [{ kind := "Service", name := "svc", namespace_ := "",
                     symbol := "k8s.resource.name", key := "", line := 10, col := 20 }],
    filePath := "/b.yaml", line := 4, col := 8 }

def storeC1 : Store :=
  ⟨[("Service/default/svc", svcResC1), ("Deployment/default/app", appResC1)]⟩

/-- The Service document open in the editor; `metadata.name` value `svc` at
1-based (4,9), so the stored name token is 0-based (3,8). -/
def svcDocC1 : YNode :=
  .mapping [
    (sc "apiVersion" 1 1, sc "v1" 1 13),
    (sc "kind" 2 1, sc "Service" 2 7),
    (sc "metadata" 3 1, .mapping [(sc "name" 4 3, sc "svc" 4 9)] 4 3)
  ] 1 1

/-- Deployment document whose `volumeMounts[].subPath: a.conf` sits at 1-based
(14,24). -/
def deployDocC5 : YNode :=
  .mapping [
    (sc "kind" 1 1, sc "Deployment" 1 7),
    (sc "metadata" 2 1, .mapping [(sc "name" 3 3, sc "app" 3 9)] 3 3),
    (sc "spec" 4 1, .mapping [
      (sc "template" 5 3, .mapping [
        (sc "spec" 6 5, .mapping [
          (sc "volumes" 7 7, .seq [
            .mapping [(sc "name" 8 11, sc "vol1" 8 17),
                      (sc "configMap" 9 11,
                        .mapping [(sc "name" 10 13, sc "my-cm" 10 19)] 10 13)] 8 11
          ] 8 9),
          (sc "containers" 11 7, .seq [
            .mapping [(sc "volumeMounts" 12 11, .seq [
              .mapping [(sc "name" 13 15, sc "vol1" 13 21),
                        (sc "subPath" 14 15, sc "a.conf" 14 24)] 13 15
            ] 13 13)] 12 11
          ] 12 9)
        ] 7 7)
      ] 6 5)
    ] 5 3)
  ] 1 1

/-- On-disk ConfigMap file whose `a.conf` key token sits at the same 1-based
(14,24) coordinates as the subPath under the cursor. -/
def cmDiskDocC5 : YNode :=
  .mapping [
    (sc "kind" 1 1, sc "ConfigMap" 1 7),
    (sc "metadata" 2 1, .mapping [(sc "name" 3 3, sc "my-cm" 3 9)] 3 3),
    (sc "data" 4 1, .mapping [(sc "a.conf" 14 24, sc "x" 14 33)] 14 24)
  ] 1 1

def cmResC5 : K8sResource :=
  { apiVersion := "v1", kind := "ConfigMap", name := "my-cm", namespace_ := "default",
    labels := [], references := [], filePath := "/w.yaml", line := 2, col := 8 }

def storeC5 : Store := ⟨[("ConfigMap/default/my-cm", cmResC5)]⟩

def fsC5 : FileSystem := fun p => if p = "/w.yaml" then some [cmDiskDocC5] else none

/-- ConfigMap whose `data.k` value is a nested mapping rather than a scalar. -/
def cmNestedDoc : YNode :=
  .mapping [
    (sc "kind" 1 1, sc "ConfigMap" 1 7),
    (sc "data" 2 1, .mapping [(sc "k" 3 3, .mapping [(sc "a" 4 5, sc "b" 4 8)] 4 5)] 3 3)
  ] 1 1

/-- ConfigMap carrying the key only under `binaryData`. -/
def cmBinDoc : YNode :=
  .mapping [
    (sc "kind" 1 1, sc "ConfigMap" 1 7),
    (sc "binaryData" 2 1, .mapping [(sc "k" 3 3, sc "b2xk" 3 6)] 3 3)
  ] 1 1

/-- The result of writing `hi` into `cmBinDoc`: the value lands in
`binaryData` verbatim with the default style. -/
def cmBinDocUpdated : YNode :=
  .mapping [
    (sc "kind" 1 1, sc "ConfigMap" 1 7),
    (sc "binaryData" 2 1, .mapping [(sc "k" 3 3, sc "hi" 3 6)] 3 3)
  ] 1 1

/-- Secret whose `data.k` value is not valid base64. -/
def secretBadB64Doc : YNode :=
  .mapping [
    (sc "kind" 1 1, sc "Secret" 1 7),
    (sc "data" 2 1, .mapping [(sc "k" 3 3, sc "%" 3 6)] 3 3)
  ] 1 1

/-- ConfigMap with a `data` section that lacks the queried key. -/
def cmOtherKeyDoc : YNode :=
  .mapping [
    (sc "kind" 1 1, sc "ConfigMap" 1 7),
    (sc "data" 2 1, .mapping [(sc "other" 3 3, sc "v" 3 10)] 3 3)
  ] 1 1

/-- Top-level entries of a ConfigMap with the queried key under `data` holding
a scalar value. -/
def cmPlainContent : List (YNode × YNode) :=
  [(sc "kind" 1 1, sc "ConfigMap" 1 7),
   (sc "data" 2 1, .mapping [(sc "k" 3 3, sc "initial value" 3 6)] 3 3)]

/-- ConfigMap with the queried key under `data` with a scalar value. -/
def cmPlainDoc : YNode := .mapping cmPlainContent 1 1

/-- The expected result of writing `line1\r\nline2 \n` into `cmPlainDoc`. -/
def cmPlainDocUpdated : YNode :=
  .mapping [
    (sc "kind" 1 1, sc "ConfigMap" 1 7),
    (sc "data" 2 1, .mapping [(sc "k" 3 3, .scalar "line1\nline2" 3 6 .literal)] 3 3)
  ] 1 1

/-- Secret with the queried key under `data` holding valid base64. -/
def secretDataDoc : YNode :=
  .mapping [
    (sc "kind" 1 1, sc "Secret" 1 7),
    (sc "data" 2 1, .mapping [(sc "k" 3 3, sc "aGVsbG8=" 3 6)] 3 3)
  ] 1 1

/-- A configuration holding one `k8s.resource.name` symbol rule. -/
def cfgRN : Config :=
  ⟨1, [⟨"k8s.resource.name", "", "",
        [⟨["Service"], "metadata.name"⟩]⟩], []⟩

/-! ## Store lemmas -/

theorem assocGet_assocSet_self (l : List (String × K8sResource)) (k : String) (r : K8sResource) :
    assocGet (assocSet l k r) k = some r := by
  induction l with
  | nil => simp [assocSet, assocGet]
  | cons hd tl ih =>
      obtain ⟨k0, r0⟩ := hd
      by_cases h : k0 = k
      · simp [assocSet, assocGet, h]
      · simp [assocSet, assocGet, h, ih]

theorem mem_assocSet (l : List (String × K8sResource)) (key : String) (v : K8sResource)
    (k : String) (r : K8sResource) (h : (k, r) ∈ assocSet l key v) :
    (k, r) ∈ l ∨ r = v := by
  induction l with
  | nil =>
      simp [assocSet] at h
      exact Or.inr h.2
  | cons hd tl ih =>
      obtain ⟨k0, r0⟩ := hd
      by_cases hk : k0 = key
      · simp [assocSet, hk] at h
        rcases h with h | h
        · exact Or.inr h.2
        · exact Or.inl (List.mem_cons_of_mem _ h)
      · simp only [assocSet, if_neg hk] at h
        rcases List.mem_cons.mp h with h | h
        · exact Or.inl (h ▸ List.mem_cons_self _ _)
        · rcases ih h with h2 | h2
          · exact Or.inl (List.mem_cons_of_mem _ h2)
          · exact Or.inr h2

/-! ## Query-site filter lemma -/

theorem mem_filterOut_not_at_query (locs : List Location) (uri : String) (line col : Nat) :
    ∀ loc ∈ filterOutLocationAtPosition locs uri line col,
      ¬(loc.uri = uri ∧ rangeContainsPosition loc.range ⟨line, col⟩ = true) := by
  intro loc hm hcon
  unfold filterOutLocationAtPosition at hm
  have h2 := (List.mem_filter.mp hm).2
  simp [hcon.1, hcon.2] at h2

/-! ## Claim C3 -/

/-- C3: in resource-name definition resolution, a primary store miss for a
non-`Namespace` target under a non-default computed namespace is retried
exactly once under the default namespace; consequently a target stored with an
empty or default namespace is found whether the reference supplies no
namespace or the literal default namespace. -/
theorem resolveDefinition_namespace_fallback :
    (∀ (store : Store) (targetKind ns name : String),
        store.Get targetKind ns name = none → targetKind ≠ "Namespace" → ns ≠ "default" →
        lookupWithDefaultFallback store targetKind ns name = store.Get targetKind "default" name) ∧
    (∀ (store : Store) (r : K8sResource) (ns : String),
        (r.namespace_ = "" ∨ r.namespace_ = "default") → (ns = "" ∨ ns = "default") →
        lookupWithDefaultFallback (store.Add r) r.kind ns r.name = some r) := by
  constructor
  · intro store k ns n h hk hns
    simp [lookupWithDefaultFallback, h, hk, hns]
  · intro store r ns hr hns
    have hkey : makeKey r.kind ns r.name = makeKey r.kind r.namespace_ r.name := by
      rcases hr with hr | hr <;> rcases hns with hns | hns <;> simp [makeKey, hr, hns]
    have hget : (store.Add r).Get r.kind ns r.name = some r := by
      unfold Store.Get Store.Add
      rw [hkey]
      exact assocGet_assocSet_self _ _ _
    simp [lookupWithDefaultFallback, hget]

theorem resolveDefinition_namespace_fallback_witness :
    ((⟨[]⟩ : Store).Get "Secret" "other" "s" = none ∧ "Secret" ≠ "Namespace" ∧
      "other" ≠ "default" ∧
      lookupWithDefaultFallback (⟨[]⟩ : Store) "Secret" "other" "s" =
        (⟨[]⟩ : Store).Get "Secret" "default" "s") ∧
    lookupWithDefaultFallback
        ((⟨[]⟩ : Store).Add
          { apiVersion := "v1", kind := "Secret", name := "s", namespace_ := "",
            labels := [], references := [], filePath := "/s.yaml", line := 3, col := 8 })
        "Secret" "default" "s" =
      some { apiVersion := "v1", kind := "Secret", name := "s", namespace_ := "",
             labels := [], references := [], filePath := "/s.yaml", line := 3, col := 8 } :=
  ⟨⟨rfl, by decide, by decide,
      resolveDefinition_namespace_fallback.1 ⟨[]⟩ "Secret" "other" "s" rfl
        (by decide) (by decide)⟩,
    resolveDefinition_namespace_fallback.2 ⟨[]⟩
      { apiVersion := "v1", kind := "Secret", name := "s", namespace_ := "",
        labels := [], references := [], filePath := "/s.yaml", line := 3, col := 8 }
      "default" (Or.inl rfl) (Or.inr rfl)⟩

/-! ## Claim C7 -/

theorem keepNamed_some (res : K8sResource) (c : Config) (r : K8sResource) (c2 : Config)
    (h : keepNamed res c = (some r, c2)) : r.name ≠ "" := by
  unfold keepNamed at h
  by_cases hn : res.name ≠ ""
  · rw [if_pos hn] at h
    injection h with h1 h2
    injection h1 with h3
    exact h3 ▸ hn
  · rw [if_neg hn] at h
    injection h with h1 h2
    exact Option.noConfusion h1

theorem parseK8sResource_name_nonempty (cfg : Config) (root : YNode) (path : String)
    (res : K8sResource) (cfg2 : Config)
    (h : parseK8sResource cfg root path = (some res, cfg2)) : res.name ≠ "" := by
  cases root with
  | scalar v l c st => simp [parseK8sResource] at h
  | seq items l c => simp [parseK8sResource] at h
  | mapping content l c =>
      simp only [parseK8sResource] at h
      by_cases hk : lastTopField content "kind" = ""
      · rw [if_pos hk] at h
        injection h with h1 h2
        exact Option.noConfusion h1
      · rw [if_neg hk] at h
        exact keepNamed_some _ _ _ _ h

/-- C7: a sub-document whose resolved name is empty is never added to the
store, so every record the indexer places in the store has a non-empty name. -/
theorem indexer_never_stores_empty_name :
    (∀ (cfg : Config) (root : YNode) (path : String) (res : K8sResource) (cfg2 : Config),
        parseK8sResource cfg root path = (some res, cfg2) → res.name ≠ "") ∧
    (∀ (cfg : Config) (store : Store) (docs : List YNode) (path : String)
        (k : String) (r : K8sResource),
        (k, r) ∈ ((IndexContent cfg store docs path).2.1).resources →
        (k, r) ∈ store.resources ∨ r.name ≠ "") := by
  refine ⟨parseK8sResource_name_nonempty, ?_⟩
  intro cfg store docs
  induction docs generalizing cfg store with
  | nil =>
      intro path k r h
      simpa [IndexContent] using Or.inl h
  | cons d rest ih =>
      intro path k r h
      unfold IndexContent at h
      rcases hp : parseK8sResource cfg d path with ⟨resOpt, c2⟩
      rw [hp] at h
      cases resOpt with
      | some res =>
          simp only at h
          rcases ih c2 (store.Add res) path k r h with h2 | h2
          · rcases mem_assocSet _ _ _ _ _ h2 with h3 | h3
            · exact Or.inl h3
            · exact Or.inr (h3 ▸ parseK8sResource_name_nonempty cfg d path res c2 hp)
          · exact Or.inr h2
      | none =>
          simp only at h
          exact ih c2 store path k r h

theorem indexer_never_stores_empty_name_witness :
    parseK8sResource ⟨0, [], []⟩
        (.mapping [(.scalar "kind" 1 1 .plain, .scalar "Pod" 1 7 .plain)] 1 1) "/p.yaml" =
      (none, ⟨0, [], []⟩) ∧
    ((IndexContent ⟨0, [], []⟩ ⟨[]⟩
        [.mapping [(.scalar "kind" 1 1 .plain, .scalar "Pod" 1 7 .plain)] 1 1]
        "/p.yaml").2.1).resources = [] ∧
    (∀ (k : String) (r : K8sResource),
        (k, r) ∈ ((IndexContent ⟨0, [], []⟩ ⟨[]⟩
          [.mapping [(.scalar "kind" 1 1 .plain, .scalar "Pod" 1 7 .plain)] 1 1]
          "/p.yaml").2.1).resources →
        (k, r) ∈ ([] : List (String × K8sResource)) ∨ r.name ≠ "") :=
  ⟨by decide, by decide,
    fun k r h => indexer_never_stores_empty_name.2 ⟨0, [], []⟩ ⟨[]⟩ _ "/p.yaml" k r h⟩

/-! ## Dynamic kind registration lemmas (claim C6) -/

theorem applySymbolDef_no_kind (K : String) (r : K8sResource) (node : YNode) (p : List String)
    (symName : String) (d : SymbolDefinition) (h : contains d.kinds K = false) :
    applySymbolDef K r node p symName d = r := by
  simp [applySymbolDef, h]

theorem defsFold_no_kind (K : String) (r : K8sResource) (node : YNode) (p : List String)
    (symName : String) (defs : List SymbolDefinition)
    (h : ∀ d ∈ defs, contains d.kinds K = false) :
    defs.foldl (fun r2 d => applySymbolDef K r2 node p symName d) r = r := by
  induction defs generalizing r with
  | nil => rfl
  | cons d rest ih =>
      rw [List.foldl_cons, applySymbolDef_no_kind K r node p symName d (h d (by simp))]
      exact ih r (fun x hx => h x (by simp [hx]))

theorem symsFold_no_kind (K : String) (r : K8sResource) (node : YNode) (p : List String)
    (syms : List Symbol) (h : ∀ s ∈ syms, ∀ d ∈ s.definitions, contains d.kinds K = false) :
    syms.foldl (fun racc sym =>
      sym.definitions.foldl (fun r2 d => applySymbolDef K r2 node p sym.name d) racc) r = r := by
  induction syms generalizing r with
  | nil => rfl
  | cons s rest ih =>
      rw [List.foldl_cons, defsFold_no_kind K r node p s.name s.definitions
        (fun d hd => h s (by simp) d hd)]
      exact ih r (fun x hx d hd => h x (by simp [hx]) d hd)

theorem contains_append_self (l : List String) (x : String) : contains (l ++ [x]) x = true := by
  simp [contains, List.any_append]

theorem appendKind_fold (K : String) (node : YNode) (p : List String)
    (defs : List SymbolDefinition)
    (h : ∀ d ∈ defs, contains d.kinds K = false)
    (hmeta : defs.any (fun d => d.path = "metadata.name") = true) :
    ∀ r : K8sResource,
      (appendKindToFirstMetaName defs K).foldl
          (fun r2 d => applySymbolDef K r2 node p "k8s.resource.name" d) r =
        if matchPath p "metadata.name" then setNameFromNode r node else r := by
  induction defs with
  | nil => simp at hmeta
  | cons d rest ih =>
      intro r
      by_cases hd : d.path = "metadata.name"
      · simp only [appendKindToFirstMetaName, if_pos hd]
        rw [List.foldl_cons]
        have h1 : applySymbolDef K r node p "k8s.resource.name"
            { d with kinds := d.kinds ++ [K] } =
            if matchPath p "metadata.name" then setNameFromNode r node else r := by
          have hk : ({ d with kinds := d.kinds ++ [K] } : SymbolDefinition).kinds =
            d.kinds ++ [K] := rfl
          have hp : ({ d with kinds := d.kinds ++ [K] } : SymbolDefinition).path = d.path := rfl
          unfold applySymbolDef
          rw [hk, hp, hd, contains_append_self]
          simp [setNameFromNode]
        rw [h1]
        exact defsFold_no_kind K _ node p _ rest (fun x hx => h x (by simp [hx]))
      · simp only [appendKindToFirstMetaName, if_neg hd]
        rw [List.foldl_cons, applySymbolDef_no_kind K r node p _ d (h d (by simp))]
        exact ih (fun x hx => h x (by simp [hx])) (by simpa [hd] using hmeta) r

theorem newdef_fold (K : String) (node : YNode) (p : List String)
    (defs : List SymbolDefinition) (h : ∀ d ∈ defs, contains d.kinds K = false)
    (r : K8sResource) :
    (defs ++ [({ kinds := [K], path := "metadata.name" } : SymbolDefinition)]).foldl
        (fun r2 d => applySymbolDef K r2 node p "k8s.resource.name" d) r =
      if matchPath p "metadata.name" then setNameFromNode r node else r := by
  rw [List.foldl_append, defsFold_no_kind K r node p _ defs h, List.foldl_cons, List.foldl_nil]
  unfold applySymbolDef
  rw [show ({ kinds := [K], path := "metadata.name" } : SymbolDefinition).kinds = [K] from rfl,
      show ({ kinds := [K], path := "metadata.name" } : SymbolDefinition).path =
        "metadata.name" from rfl,
      show contains [K] K = true by simp [contains]]
  simp [setNameFromNode]

theorem registerKindInSymbol_name (sym : Symbol) (K : String) :
    (registerKindInSymbol sym K).name = sym.name := by
  unfold registerKindInSymbol
  split
  · rfl
  · split <;> rfl

theorem regDefs_fold (K : String) (node : YNode) (p : List String) (sym : Symbol)
    (hsymK : ∀ d ∈ sym.definitions, contains d.kinds K = false) (r : K8sResource) :
    (registerKindInSymbol sym K).definitions.foldl
        (fun r2 d => applySymbolDef K r2 node p "k8s.resource.name" d) r =
      if matchPath p "metadata.name" then setNameFromNode r node else r := by
  have hany : sym.definitions.any (fun d => contains d.kinds K) = false := by
    rw [List.any_eq_false]
    intro d hd
    simp [hsymK d hd]
  unfold registerKindInSymbol
  rw [if_neg (by simp [hany])]
  by_cases hm : sym.definitions.any (fun d => d.path = "metadata.name") = true
  · rw [if_pos hm]
    exact appendKind_fold K node p sym.definitions hsymK hm r
  · rw [if_neg hm]
    exact newdef_fold K node p sym.definitions hsymK r

theorem regSymbols_decomp (K : String) (pre post : List Symbol) (sym : Symbol)
    (hpre : ∀ s ∈ pre, s.name ≠ "k8s.resource.name")
    (hname : sym.name = "k8s.resource.name") :
    registerKindSymbols (pre ++ sym :: post) K =
      pre ++ registerKindInSymbol sym K :: post := by
  induction pre with
  | nil => simp [registerKindSymbols, hname]
  | cons s rest ih =>
      have hs : s.name ≠ "k8s.resource.name" := hpre s (by simp)
      simp only [List.cons_append, registerKindSymbols, if_neg hs]
      show s :: registerKindSymbols (rest ++ sym :: post) K =
        s :: (rest ++ registerKindInSymbol sym K :: post)
      rw [ih (fun x hx => hpre x (by simp [hx]))]

theorem registered_symsFold (K : String) (node : YNode) (p : List String)
    (pre post : List Symbol) (sym : Symbol)
    (hpre : ∀ s ∈ pre, ∀ d ∈ s.definitions, contains d.kinds K = false)
    (hpost : ∀ s ∈ post, ∀ d ∈ s.definitions, contains d.kinds K = false)
    (hsymK : ∀ d ∈ sym.definitions, contains d.kinds K = false)
    (hname : sym.name = "k8s.resource.name") (r : K8sResource) :
    (pre ++ registerKindInSymbol sym K :: post).foldl
        (fun racc s =>
          s.definitions.foldl (fun r2 d => applySymbolDef K r2 node p s.name d) racc) r =
      if matchPath p "metadata.name" then setNameFromNode r node else r := by
  rw [List.foldl_append, symsFold_no_kind K r node p pre hpre, List.foldl_cons]
  rw [show (registerKindInSymbol sym K).name = "k8s.resource.name" by
        rw [registerKindInSymbol_name, hname]]
  rw [regDefs_fold K node p sym hsymK r]
  exact symsFold_no_kind K _ node p post hpost

theorem applyRefRule_fields (K : String) (r : K8sResource) (node : YNode) (p : List String)
    (rule : ConfigReference) :
    (applyRefRule K r node p rule).name = r.name ∧
    (applyRefRule K r node p rule).namespace_ = r.namespace_ ∧
    (applyRefRule K r node p rule).kind = r.kind ∧
    (applyRefRule K r node p rule).filePath = r.filePath := by
  unfold applyRefRule
  split
  · cases node with
    | mapping es l c =>
        dsimp only
        split <;> exact ⟨rfl, rfl, rfl, rfl⟩
    | scalar v l c st => exact ⟨rfl, rfl, rfl, rfl⟩
    | seq es l c => exact ⟨rfl, rfl, rfl, rfl⟩
  · exact ⟨rfl, rfl, rfl, rfl⟩

theorem refFold_fields (K : String) (node : YNode) (p : List String)
    (rules : List ConfigReference) : ∀ r : K8sResource,
    ((rules.foldl (fun racc rule => applyRefRule K racc node p rule) r).name = r.name ∧
     (rules.foldl (fun racc rule => applyRefRule K racc node p rule) r).namespace_ =
       r.namespace_ ∧
     (rules.foldl (fun racc rule => applyRefRule K racc node p rule) r).kind = r.kind ∧
     (rules.foldl (fun racc rule => applyRefRule K racc node p rule) r).filePath =
       r.filePath) := by
  induction rules with
  | nil => exact fun r => ⟨rfl, rfl, rfl, rfl⟩
  | cons rule rest ih =>
      intro r
      rw [List.foldl_cons]
      obtain ⟨h1, h2, h3, h4⟩ := ih (applyRefRule K r node p rule)
      obtain ⟨g1, g2, g3, g4⟩ := applyRefRule_fields K r node p rule
      exact ⟨h1.trans g1, h2.trans g2, h3.trans g3, h4.trans g4⟩

theorem registered_visitStep_char (K : String) (cfg' : Config)
    (pre post : List Symbol) (sym : Symbol)
    (hsyms : cfg'.symbols = pre ++ registerKindInSymbol sym K :: post)
    (hpre : ∀ s ∈ pre, ∀ d ∈ s.definitions, contains d.kinds K = false)
    (hpost : ∀ s ∈ post, ∀ d ∈ s.definitions, contains d.kinds K = false)
    (hsymK : ∀ d ∈ sym.definitions, contains d.kinds K = false)
    (hname : sym.name = "k8s.resource.name")
    (r : K8sResource) (node : YNode) (p : List String) :
    (visitStep cfg' K r (node, p)).name =
      (if matchPath p "metadata.name" then node.valueOf else r.name) ∧
    (visitStep cfg' K r (node, p)).namespace_ =
      (if matchPath p "metadata.namespace" then node.valueOf else r.namespace_) ∧
    (visitStep cfg' K r (node, p)).kind = r.kind ∧
    (visitStep cfg' K r (node, p)).filePath = r.filePath := by
  unfold visitStep
  dsimp only
  rw [hsyms, registered_symsFold K node p pre post sym hpre hpost hsymK hname r]
  obtain ⟨f1, f2, f3, f4⟩ := refFold_fields K node p cfg'.references
    (if matchPath p "metadata.namespace" then
      { (if matchPath p "metadata.name" then setNameFromNode r node else r) with
          namespace_ := node.valueOf }
     else (if matchPath p "metadata.name" then setNameFromNode r node else r))
  refine ⟨f1.trans ?_, f2.trans ?_, f3.trans ?_, f4.trans ?_⟩ <;>
    by_cases h1 : matchPath p "metadata.name" = true <;>
    by_cases h2 : matchPath p "metadata.namespace" = true <;>
    simp [h1, h2, setNameFromNode]

theorem instance_fold_fields (cfg' : Config) (K n : String)
    (hchar : ∀ (r : K8sResource) (node : YNode) (p : List String),
      (visitStep cfg' K r (node, p)).name =
        (if matchPath p "metadata.name" then node.valueOf else r.name) ∧
      (visitStep cfg' K r (node, p)).namespace_ =
        (if matchPath p "metadata.namespace" then node.valueOf else r.namespace_) ∧
      (visitStep cfg' K r (node, p)).kind = r.kind ∧
      (visitStep cfg' K r (node, p)).filePath = r.filePath)
    (res0 : K8sResource) :
    (visitStep cfg' K (visitStep cfg' K (visitStep cfg' K (visitStep cfg' K res0
        (instanceDoc K n, []))
        (YNode.scalar K 1 7 .plain, ["kind"]))
        (YNode.mapping [(YNode.scalar "name" 3 3 .plain, YNode.scalar n 3 9 .plain)] 3 3,
          ["metadata"]))
        (YNode.scalar n 3 9 .plain, ["metadata", "name"])).name = n ∧
    (visitStep cfg' K (visitStep cfg' K (visitStep cfg' K (visitStep cfg' K res0
        (instanceDoc K n, []))
        (YNode.scalar K 1 7 .plain, ["kind"]))
        (YNode.mapping [(YNode.scalar "name" 3 3 .plain, YNode.scalar n 3 9 .plain)] 3 3,
          ["metadata"]))
        (YNode.scalar n 3 9 .plain, ["metadata", "name"])).namespace_ = res0.namespace_ ∧
    (visitStep cfg' K (visitStep cfg' K (visitStep cfg' K (visitStep cfg' K res0
        (instanceDoc K n, []))
        (YNode.scalar K 1 7 .plain, ["kind"]))
        (YNode.mapping [(YNode.scalar "name" 3 3 .plain, YNode.scalar n 3 9 .plain)] 3 3,
          ["metadata"]))
        (YNode.scalar n 3 9 .plain, ["metadata", "name"])).kind = res0.kind ∧
    (visitStep cfg' K (visitStep cfg' K (visitStep cfg' K (visitStep cfg' K res0
        (instanceDoc K n, []))
        (YNode.scalar K 1 7 .plain, ["kind"]))
        (YNode.mapping [(YNode.scalar "name" 3 3 .plain, YNode.scalar n 3 9 .plain)] 3 3,
          ["metadata"]))
        (YNode.scalar n 3 9 .plain, ["metadata", "name"])).filePath = res0.filePath := by
  set r1 := visitStep cfg' K res0 (instanceDoc K n, []) with hr1
  set r2 := visitStep cfg' K r1 (YNode.scalar K 1 7 .plain, ["kind"]) with hr2
  set r3 := visitStep cfg' K r2
    (YNode.mapping [(YNode.scalar "name" 3 3 .plain, YNode.scalar n 3 9 .plain)] 3 3,
      ["metadata"]) with hr3
  obtain ⟨a1, b1, c1, d1⟩ := hchar res0 (instanceDoc K n) []
  obtain ⟨a2, b2, c2, d2⟩ := hchar r1 (YNode.scalar K 1 7 .plain) ["kind"]
  obtain ⟨a3, b3, c3, d3⟩ := hchar r2
    (YNode.mapping [(YNode.scalar "name" 3 3 .plain, YNode.scalar n 3 9 .plain)] 3 3)
    ["metadata"]
  obtain ⟨a4, b4, c4, d4⟩ := hchar r3 (YNode.scalar n 3 9 .plain) ["metadata", "name"]
  have hm1 : matchPath ([] : List String) "metadata.name" = false := rfl
  have hm2 : matchPath ["kind"] "metadata.name" = false := rfl
  have hm3 : matchPath ["metadata"] "metadata.name" = false := rfl
  have hm4 : matchPath ["metadata", "name"] "metadata.name" = true := rfl
  have hs1 : matchPath ([] : List String) "metadata.namespace" = false := rfl
  have hs2 : matchPath ["kind"] "metadata.namespace" = false := rfl
  have hs3 : matchPath ["metadata"] "metadata.namespace" = false := rfl
  have hs4 : matchPath ["metadata", "name"] "metadata.namespace" = false := rfl
  simp [hm4, YNode.valueOf] at a4
  simp [hs4] at b4
  simp [hs3] at b3
  simp [hs2] at b2
  simp [hs1] at b1
  refine ⟨a4, ?_, ?_, ?_⟩
  · rw [b4, b3, b2, b1]
  · rw [c4, c3, c2, c1]
  · rw [d4, d3, d2, d1]

theorem keepNamed_pos (res : K8sResource) (cfg : Config) (h : res.name ≠ "") :
    keepNamed res cfg = (some res, cfg) := by
  unfold keepNamed
  rw [if_pos h]

theorem parse_instanceDoc_char (cfg' : Config) (K n path : String) (hK : K ≠ "") (hn : n ≠ "")
    (hchar : ∀ (r : K8sResource) (node : YNode) (p : List String),
      (visitStep cfg' K r (node, p)).name =
        (if matchPath p "metadata.name" then node.valueOf else r.name) ∧
      (visitStep cfg' K r (node, p)).namespace_ =
        (if matchPath p "metadata.namespace" then node.valueOf else r.namespace_) ∧
      (visitStep cfg' K r (node, p)).kind = r.kind ∧
      (visitStep cfg' K r (node, p)).filePath = r.filePath) :
    ∃ res, parseK8sResource cfg' (instanceDoc K n) path = (some res, cfg') ∧
      res.name = n ∧ res.kind = K ∧ res.namespace_ = "" ∧ res.filePath = path := by
  obtain ⟨hTname, hTns, hTkind, hTfile⟩ := instance_fold_fields cfg' K n hchar
    { apiVersion := lastTopField
        [(YNode.scalar "kind" 1 1 .plain, YNode.scalar K 1 7 .plain),
          (YNode.scalar "metadata" 2 1 .plain,
            YNode.mapping [(YNode.scalar "name" 3 3 .plain, YNode.scalar n 3 9 .plain)] 3 3)]
        "apiVersion",
      kind := K, name := "", namespace_ := "", labels := [], references := [],
      filePath := path, line := 0, col := 0 }
  simp only [instanceDoc] at hTname hTns hTkind hTfile
  simp only [parseK8sResource, instanceDoc]
  rw [show lastTopField
      [(YNode.scalar "kind" 1 1 .plain, YNode.scalar K 1 7 .plain),
       (YNode.scalar "metadata" 2 1 .plain,
         YNode.mapping [(YNode.scalar "name" 3 3 .plain, YNode.scalar n 3 9 .plain)] 3 3)]
      "kind" = K from rfl]
  rw [if_neg hK]
  rw [show (handleCRD cfg'
      (YNode.mapping
        [(YNode.scalar "kind" 1 1 .plain, YNode.scalar K 1 7 .plain),
         (YNode.scalar "metadata" 2 1 .plain,
           YNode.mapping [(YNode.scalar "name" 3 3 .plain, YNode.scalar n 3 9 .plain)] 3 3)]
        1 1)) = cfg' from rfl]
  rw [ite_self]
  rw [show traverseVisits
      (YNode.mapping
        [(YNode.scalar "kind" 1 1 .plain, YNode.scalar K 1 7 .plain),
         (YNode.scalar "metadata" 2 1 .plain,
           YNode.mapping [(YNode.scalar "name" 3 3 .plain, YNode.scalar n 3 9 .plain)] 3 3)]
        1 1) [] =
      [(YNode.mapping
          [(YNode.scalar "kind" 1 1 .plain, YNode.scalar K 1 7 .plain),
           (YNode.scalar "metadata" 2 1 .plain,
             YNode.mapping [(YNode.scalar "name" 3 3 .plain, YNode.scalar n 3 9 .plain)] 3 3)]
          1 1, ([] : List String)),
       (YNode.scalar K 1 7 .plain, ["kind"]),
       (YNode.mapping [(YNode.scalar "name" 3 3 .plain, YNode.scalar n 3 9 .plain)] 3 3,
         ["metadata"]),
       (YNode.scalar n 3 9 .plain, ["metadata", "name"])] from rfl]
  simp only [List.foldl_cons, List.foldl_nil]
  refine ⟨_, keepNamed_pos _ _ (fun hcon => hn (hTname.symm.trans hcon)), ?_, ?_, ?_, ?_⟩
  · exact hTname
  · exact hTkind
  · exact hTns
  · exact hTfile

theorem appendKind_length (defs : List SymbolDefinition) (K : String) :
    (appendKindToFirstMetaName defs K).length = defs.length := by
  induction defs with
  | nil => rfl
  | cons d rest ih =>
      by_cases hd : d.path = "metadata.name"
      · simp [appendKindToFirstMetaName, hd]
      · simp [appendKindToFirstMetaName, hd, ih]

theorem appendKind_mem (defs : List SymbolDefinition) (K : String)
    (hmeta : defs.any (fun d => d.path = "metadata.name") = true) :
    ∃ d ∈ appendKindToFirstMetaName defs K,
      d.path = "metadata.name" ∧ contains d.kinds K = true := by
  induction defs with
  | nil => simp at hmeta
  | cons d rest ih =>
      by_cases hd : d.path = "metadata.name"
      · refine ⟨{ d with kinds := d.kinds ++ [K] }, ?_, hd, contains_append_self _ _⟩
        simp [appendKindToFirstMetaName, hd]
      · obtain ⟨e, he, hp, hc⟩ := ih (by simpa [hd] using hmeta)
        exact ⟨e, by simp [appendKindToFirstMetaName, hd, he], hp, hc⟩

/-- C6: dynamic kind registration is idempotent (a kind already present in
some definition of the resource-name rule leaves the configuration unchanged)
and monotone (a new kind is appended to the first `metadata.name` definition
when one exists, else a fresh `metadata.name` definition holding only that
kind is created); consequently an instance of a freshly registered kind with a
name becomes lookupable in the store under the resource-name symbol class. -/
theorem registerKind_idempotent_monotone_enables_lookup :
    (∀ (cfg : Config) (K : String) (pre post : List Symbol) (sym : Symbol),
        cfg.symbols = pre ++ sym :: post →
        (∀ s ∈ pre, s.name ≠ "k8s.resource.name") →
        sym.name = "k8s.resource.name" →
        sym.definitions.any (fun d => contains d.kinds K) = true →
        registerKind cfg K = cfg) ∧
    (∀ (cfg : Config) (K : String) (pre post : List Symbol) (sym : Symbol),
        cfg.symbols = pre ++ sym :: post →
        (∀ s ∈ pre, s.name ≠ "k8s.resource.name") →
        sym.name = "k8s.resource.name" →
        sym.definitions.any (fun d => contains d.kinds K) = false →
        (registerKind cfg K).symbols = pre ++ registerKindInSymbol sym K :: post ∧
        (∃ d ∈ (registerKindInSymbol sym K).definitions,
            d.path = "metadata.name" ∧ contains d.kinds K = true) ∧
        (sym.definitions.any (fun d => d.path = "metadata.name") = true →
            (registerKindInSymbol sym K).definitions.length = sym.definitions.length) ∧
        (sym.definitions.any (fun d => d.path = "metadata.name") = false →
            (registerKindInSymbol sym K).definitions =
              sym.definitions ++
                [({ kinds := [K], path := "metadata.name" } : SymbolDefinition)])) ∧
    (∀ (cfg : Config) (store : Store) (path K n : String) (pre post : List Symbol)
        (sym : Symbol),
        cfg.symbols = pre ++ sym :: post →
        (∀ s ∈ pre, s.name ≠ "k8s.resource.name") →
        sym.name = "k8s.resource.name" →
        (∀ s ∈ cfg.symbols, ∀ d ∈ s.definitions, contains d.kinds K = false) →
        K ≠ "" → n ≠ "" →
        ∃ res, ((IndexContent (registerKind cfg K) store [instanceDoc K n] path).2.1).Get
            K "" n = some res ∧ res.name = n ∧ res.kind = K ∧ res.filePath = path) := by
  refine ⟨?_, ?_, ?_⟩
  · intro cfg K pre post sym hsymseq hpre hname hpresent
    unfold registerKind
    rw [hsymseq, regSymbols_decomp K pre post sym hpre hname]
    rw [show registerKindInSymbol sym K = sym by
      unfold registerKindInSymbol
      rw [if_pos hpresent]]
    rw [← hsymseq]
  · intro cfg K pre post sym hsymseq hpre hname habsent
    have hreg : (registerKind cfg K).symbols = pre ++ registerKindInSymbol sym K :: post := by
      unfold registerKind
      rw [hsymseq]
      exact regSymbols_decomp K pre post sym hpre hname
    refine ⟨hreg, ?_, ?_, ?_⟩
    · unfold registerKindInSymbol
      rw [if_neg (by simp [habsent])]
      by_cases hm : sym.definitions.any (fun d => d.path = "metadata.name") = true
      · rw [if_pos hm]
        exact appendKind_mem sym.definitions K hm
      · rw [if_neg hm]
        refine ⟨{ kinds := [K], path := "metadata.name" }, by simp, rfl, by simp [contains]⟩
    · intro hm
      unfold registerKindInSymbol
      rw [if_neg (by simp [habsent]), if_pos hm]
      exact appendKind_length sym.definitions K
    · intro hm
      unfold registerKindInSymbol
      rw [if_neg (by simp [habsent]), if_neg (by simp [hm])]
  · intro cfg store path K n pre post sym hsymseq hpre hname hnoK hK hn
    have hsymK : ∀ d ∈ sym.definitions, contains d.kinds K = false :=
      fun d hd => hnoK sym (by rw [hsymseq]; simp) d hd
    have hpreK : ∀ s ∈ pre, ∀ d ∈ s.definitions, contains d.kinds K = false :=
      fun s hs d hd => hnoK s (by rw [hsymseq]; simp [hs]) d hd
    have hpostK : ∀ s ∈ post, ∀ d ∈ s.definitions, contains d.kinds K = false :=
      fun s hs d hd => hnoK s (by rw [hsymseq]; simp [hs]) d hd
    have hsyms' : (registerKind cfg K).symbols =
        pre ++ registerKindInSymbol sym K :: post := by
      unfold registerKind
      rw [hsymseq]
      exact regSymbols_decomp K pre post sym hpre hname
    have hchar := fun (r : K8sResource) (node : YNode) (p : List String) =>
      registered_visitStep_char K (registerKind cfg K) pre post sym hsyms'
        hpreK hpostK hsymK hname r node p
    obtain ⟨res, hp, hrn, hrk, hrns, hrf⟩ :=
      parse_instanceDoc_char (registerKind cfg K) K n path hK hn hchar
    refine ⟨res, ?_, hrn, hrk, hrf⟩
    have hidx : (IndexContent (registerKind cfg K) store [instanceDoc K n] path).2.1 =
        store.Add res := by
      unfold IndexContent
      rw [hp]
      rfl
    rw [hidx]
    unfold Store.Get Store.Add
    rw [show makeKey K "" n = makeKey res.kind res.namespace_ res.name by
      rw [hrk, hrns, hrn]]
    exact assocGet_assocSet_self _ _ _

theorem registerKind_idempotent_monotone_enables_lookup_witness :
    registerKind cfgRN "Service" = cfgRN ∧
    (registerKind cfgRN "MyResource").symbols =
      [] ++ registerKindInSymbol
        ⟨"k8s.resource.name", "", "", [⟨["Service"], "metadata.name"⟩]⟩ "MyResource" :: [] ∧
    (∃ res, ((IndexContent (registerKind cfgRN "MyResource") ⟨[]⟩
        [instanceDoc "MyResource" "target"] "/cr.yaml").2.1).Get "MyResource" "" "target" =
          some res ∧
        res.name = "target" ∧ res.kind = "MyResource" ∧ res.filePath = "/cr.yaml") :=
  ⟨registerKind_idempotent_monotone_enables_lookup.1 cfgRN "Service" [] []
      ⟨"k8s.resource.name", "", "", [⟨["Service"], "metadata.name"⟩]⟩ rfl
      (by simp) rfl (by decide),
    (registerKind_idempotent_monotone_enables_lookup.2.1 cfgRN "MyResource" [] []
      ⟨"k8s.resource.name", "", "", [⟨["Service"], "metadata.name"⟩]⟩ rfl
      (by simp) rfl (by decide)).1,
    registerKind_idempotent_monotone_enables_lookup.2.2 cfgRN ⟨[]⟩ "/cr.yaml" "MyResource"
      "target" [] [] ⟨"k8s.resource.name", "", "", [⟨["Service"], "metadata.name"⟩]⟩ rfl
      (by simp) rfl (by decide) (by decide) (by decide)⟩

/-! ## Base64 codec lemmas -/

theorem b64Index_b64Char (i : Nat) (h : i < 64) :
    b64Index (b64Char b64StdAlphabet i) = some i := by
  have hfin : ∀ j : Fin 64, b64Index (b64Char b64StdAlphabet j.val) = some j.val := by decide
  exact hfin ⟨i, h⟩

theorem b64Char_ne (i : Nat) :
    b64Char b64StdAlphabet i ≠ '\r' ∧ b64Char b64StdAlphabet i ≠ '\n' ∧
      b64Char b64StdAlphabet i ≠ '=' := by
  by_cases h : i < 64
  · have hfin : ∀ j : Fin 64, b64Char b64StdAlphabet j.val ≠ '\r' ∧
        b64Char b64StdAlphabet j.val ≠ '\n' ∧ b64Char b64StdAlphabet j.val ≠ '=' := by decide
    exact hfin ⟨i, h⟩
  · have hlen : b64StdAlphabet.length ≤ i := by
      have h64 : b64StdAlphabet.length = 64 := rfl
      omega
    unfold b64Char
    rw [List.getD_eq_getElem?_getD, List.getElem?_eq_none hlen]
    exact ⟨by decide, by decide, by decide⟩

theorem filterCRLF_cons_keep (c : Char) (l : List Char) (h1 : c ≠ '\r') (h2 : c ≠ '\n') :
    filterCRLF (c :: l) = c :: filterCRLF l := by
  simp [filterCRLF, h1, h2]

theorem base64_core_roundtrip : ∀ (bs : List Nat), (∀ b ∈ bs, b < 256) →
    base64DecodeCore (filterCRLF (base64EncodeCore b64StdAlphabet bs)) = some bs
  | [], _ => rfl
  | [b0], h => by
      have hb0 : b0 < 256 := h b0 (by simp)
      rw [show base64EncodeCore b64StdAlphabet [b0] =
          [b64Char b64StdAlphabet (b0 / 4), b64Char b64StdAlphabet (b0 % 4 * 16), '=', '=']
          from rfl]
      rw [filterCRLF_cons_keep _ _ (b64Char_ne _).1 (b64Char_ne _).2.1,
          filterCRLF_cons_keep _ _ (b64Char_ne _).1 (b64Char_ne _).2.1,
          filterCRLF_cons_keep _ _ (by decide) (by decide),
          filterCRLF_cons_keep _ _ (by decide) (by decide),
          show filterCRLF [] = [] from rfl]
      simp only [base64DecodeCore]
      rw [if_pos (by simp)]
      rw [b64Index_b64Char _ (by omega), b64Index_b64Char _ (by omega)]
      simp only [Option.pure_def, Option.bind_eq_bind, Option.some_bind, Option.some.injEq,
        List.cons.injEq, and_true]
      have he : b0 % 4 * 16 / 16 = b0 % 4 :=
        Nat.mul_div_cancel _ (by norm_num : (0 : Nat) < 16)
      omega
  | [b0, b1], h => by
      have hb0 : b0 < 256 := h b0 (by simp)
      have hb1 : b1 < 256 := h b1 (by simp)
      rw [show base64EncodeCore b64StdAlphabet [b0, b1] =
          [b64Char b64StdAlphabet (b0 / 4), b64Char b64StdAlphabet (b0 % 4 * 16 + b1 / 16),
           b64Char b64StdAlphabet (b1 % 16 * 4), '='] from rfl]
      rw [filterCRLF_cons_keep _ _ (b64Char_ne _).1 (b64Char_ne _).2.1,
          filterCRLF_cons_keep _ _ (b64Char_ne _).1 (b64Char_ne _).2.1,
          filterCRLF_cons_keep _ _ (b64Char_ne _).1 (b64Char_ne _).2.1,
          filterCRLF_cons_keep _ _ (by decide) (by decide),
          show filterCRLF [] = [] from rfl]
      simp only [base64DecodeCore]
      rw [if_neg (fun hcon => (b64Char_ne (b1 % 16 * 4)).2.2 hcon.1)]
      rw [if_pos (by simp)]
      rw [b64Index_b64Char _ (by omega), b64Index_b64Char _ (by omega),
          b64Index_b64Char _ (by omega)]
      simp only [Option.pure_def, Option.bind_eq_bind, Option.some_bind, Option.some.injEq,
        List.cons.injEq, and_true]
      have he1 : b1 / 16 < 16 := by omega
      have he2 : (b0 % 4 * 16 + b1 / 16) / 16 = b0 % 4 := by omega
      have he3 : (b0 % 4 * 16 + b1 / 16) % 16 = b1 / 16 := by omega
      have he4 : b1 % 16 * 4 / 4 = b1 % 16 :=
        Nat.mul_div_cancel _ (by norm_num : (0 : Nat) < 4)
      constructor
      · omega
      · omega
  | b0 :: b1 :: b2 :: rest, h => by
      have hb0 : b0 < 256 := h b0 (by simp)
      have hb1 : b1 < 256 := h b1 (by simp)
      have hb2 : b2 < 256 := h b2 (by simp)
      have hrest : ∀ b ∈ rest, b < 256 := fun b hb => h b (by simp [hb])
      rw [show base64EncodeCore b64StdAlphabet (b0 :: b1 :: b2 :: rest) =
          b64Char b64StdAlphabet (b0 / 4) ::
          b64Char b64StdAlphabet (b0 % 4 * 16 + b1 / 16) ::
          b64Char b64StdAlphabet (b1 % 16 * 4 + b2 / 64) ::
          b64Char b64StdAlphabet (b2 % 64) ::
          base64EncodeCore b64StdAlphabet rest from rfl]
      rw [filterCRLF_cons_keep _ _ (b64Char_ne _).1 (b64Char_ne _).2.1,
          filterCRLF_cons_keep _ _ (b64Char_ne _).1 (b64Char_ne _).2.1,
          filterCRLF_cons_keep _ _ (b64Char_ne _).1 (b64Char_ne _).2.1,
          filterCRLF_cons_keep _ _ (b64Char_ne _).1 (b64Char_ne _).2.1]
      simp only [base64DecodeCore]
      rw [if_neg (fun hcon => (b64Char_ne (b1 % 16 * 4 + b2 / 64)).2.2 hcon.1)]
      rw [if_neg (fun hcon => (b64Char_ne (b2 % 64)).2.2 hcon.1)]
      rw [b64Index_b64Char _ (by omega), b64Index_b64Char _ (by omega),
          b64Index_b64Char _ (by omega), b64Index_b64Char _ (by omega)]
      rw [base64_core_roundtrip rest hrest]
      simp only [Option.pure_def, Option.bind_eq_bind, Option.some_bind, Option.some.injEq,
        List.cons.injEq, and_true]
      have he1 : b1 / 16 < 16 := by omega
      have he2 : (b0 % 4 * 16 + b1 / 16) / 16 = b0 % 4 := by omega
      have he3 : (b0 % 4 * 16 + b1 / 16) % 16 = b1 / 16 := by omega
      have he4 : b2 / 64 < 4 := by omega
      have he5 : (b1 % 16 * 4 + b2 / 64) / 4 = b1 % 16 := by omega
      have he6 : (b1 % 16 * 4 + b2 / 64) % 4 = b2 / 64 := by omega
      refine ⟨by omega, by omega, by omega⟩

theorem base64Decode_base64Encode (s : String) (h : IsByteStr s) :
    base64Decode (base64Encode s) = some s := by
  unfold base64Decode base64Encode
  have hb : ∀ b ∈ s.data.map Char.toNat, b < 256 := by
    intro b hb
    simp only [List.mem_map] at hb
    obtain ⟨c, hc, rfl⟩ := hb
    exact h c hc
  rw [show (String.mk (base64EncodeCore b64StdAlphabet (s.data.map Char.toNat))).data =
      base64EncodeCore b64StdAlphabet (s.data.map Char.toNat) from rfl]
  rw [base64_core_roundtrip _ hb]
  rw [Option.map_some']
  congr 1
  rw [List.map_map]
  conv_rhs => rw [show s = String.mk s.data from rfl]
  congr 1
  rw [show (Char.ofNat ∘ Char.toNat) = fun c : Char => Char.ofNat c.toNat from rfl]
  rw [show (fun c : Char => Char.ofNat c.toNat) = fun c : Char => c from
    funext fun c => Char.ofNat_toNat c]
  exact List.map_id _

/-! ## Embedded-content update/read correspondence -/

theorem updateEntries_read (entries : List (YNode × YNode)) (key v : String) (st : YStyle)
    (e2 : List (YNode × YNode)) (h : updateEntries entries key v st = some e2) :
    ∃ v0, lookupYKey entries key = some v0 ∧
      lookupYKey e2 key = some (setScalarValue v0 v st) := by
  induction entries generalizing e2 with
  | nil => simp [updateEntries] at h
  | cons p rest ih =>
      obtain ⟨k, val⟩ := p
      by_cases hk : k.valueOf = key
      · simp only [updateEntries, if_pos hk, Option.some.injEq] at h
        subst h
        exact ⟨val, by simp [lookupYKey, hk], by simp [lookupYKey, hk]⟩
      · simp only [updateEntries, if_neg hk, Option.map_eq_some'] at h
        obtain ⟨r, hr, he⟩ := h
        subst he
        obtain ⟨v0, h1, h2⟩ := ih r hr
        exact ⟨v0, by simp [lookupYKey, hk, h1], by simp [lookupYKey, hk, h2]⟩

theorem updateEntries_none_iff (entries : List (YNode × YNode)) (key v : String) (st : YStyle) :
    updateEntries entries key v st = none ↔ lookupYKey entries key = none := by
  induction entries with
  | nil => simp [updateEntries, lookupYKey]
  | cons p rest ih =>
      obtain ⟨k, val⟩ := p
      by_cases hk : k.valueOf = key
      · simp [updateEntries, lookupYKey, hk]
      · simp [updateEntries, lookupYKey, hk, Option.map_eq_none', ih]

theorem updateRootSection_read (content : List (YNode × YNode)) (sec key v : String)
    (st : YStyle) (c2 : List (YNode × YNode))
    (h : updateRootSection content sec key v st = some c2) :
    ∃ v0, updateTargetNode content sec key = some v0 ∧
      searchMapSection c2 sec key = some (setScalarValue v0 v st).valueOf := by
  induction content generalizing c2 with
  | nil => simp [updateRootSection] at h
  | cons p rest ih =>
      obtain ⟨k, val⟩ := p
      by_cases hk : k.valueOf = sec
      · cases val with
        | mapping entries ml mc =>
            cases hup : updateEntries entries key v st with
            | some e2 =>
                simp only [updateRootSection, if_pos hk, hup, Option.some.injEq] at h
                subst h
                obtain ⟨v0, h1, h2⟩ := updateEntries_read entries key v st e2 hup
                exact ⟨v0, by simp [updateTargetNode, hk, h1],
                  by simp [searchMapSection, hk, h2]⟩
            | none =>
                simp only [updateRootSection, if_pos hk, hup, Option.map_eq_some'] at h
                obtain ⟨r, hr, he⟩ := h
                subst he
                obtain ⟨v0, h1, h2⟩ := ih r hr
                have hl : lookupYKey entries key = none :=
                  (updateEntries_none_iff entries key v st).mp hup
                exact ⟨v0, by simp [updateTargetNode, hk, hl, h1],
                  by simp [searchMapSection, hk, hl, h2]⟩
        | scalar s l c stl => simp [updateRootSection, hk] at h
        | seq es l c => simp [updateRootSection, hk] at h
      · simp only [updateRootSection, if_neg hk, Option.map_eq_some'] at h
        obtain ⟨r, hr, he⟩ := h
        subst he
        obtain ⟨v0, h1, h2⟩ := ih r hr
        exact ⟨v0, by simp [updateTargetNode, hk, h1], by simp [searchMapSection, hk, h2]⟩

theorem updateRootSection_other (content : List (YNode × YNode)) (sec key v : String)
    (st : YStyle) (c2 : List (YNode × YNode))
    (h : updateRootSection content sec key v st = some c2)
    (sec2 key2 : String) (hne : sec2 ≠ sec) :
    searchMapSection c2 sec2 key2 = searchMapSection content sec2 key2 := by
  induction content generalizing c2 with
  | nil => simp [updateRootSection] at h
  | cons p rest ih =>
      obtain ⟨k, val⟩ := p
      by_cases hk : k.valueOf = sec
      · have hk2 : ¬(k.valueOf = sec2) := by rw [hk]; exact fun hcon => hne hcon.symm
        cases val with
        | mapping entries ml mc =>
            cases hup : updateEntries entries key v st with
            | some e2 =>
                simp only [updateRootSection, if_pos hk, hup, Option.some.injEq] at h
                subst h
                simp [searchMapSection, hk2]
            | none =>
                simp only [updateRootSection, if_pos hk, hup, Option.map_eq_some'] at h
                obtain ⟨r, hr, he⟩ := h
                subst he
                simp [searchMapSection, hk2, ih r hr]
        | scalar s l c stl => simp [updateRootSection, hk] at h
        | seq es l c => simp [updateRootSection, hk] at h
      · simp only [updateRootSection, if_neg hk, Option.map_eq_some'] at h
        obtain ⟨r, hr, he⟩ := h
        subst he
        by_cases hk2 : k.valueOf = sec2
        · cases val with
          | mapping entries ml mc =>
              cases hl : lookupYKey entries key2 with
              | some w => simp [searchMapSection, hk2, hl]
              | none => simp [searchMapSection, hk2, hl, ih r hr]
          | scalar s l c stl => simp [searchMapSection, hk2]
          | seq es l c => simp [searchMapSection, hk2]
        · simp [searchMapSection, hk2, ih r hr]

theorem updateRootSection_none_iff (content : List (YNode × YNode)) (sec key v : String)
    (st : YStyle) :
    updateRootSection content sec key v st = none ↔ searchMapSection content sec key = none := by
  induction content with
  | nil => simp [updateRootSection, searchMapSection]
  | cons p rest ih =>
      obtain ⟨k, val⟩ := p
      by_cases hk : k.valueOf = sec
      · cases val with
        | mapping entries ml mc =>
            cases hup : updateEntries entries key v st with
            | some e2 =>
                obtain ⟨v0, h1, h2⟩ := updateEntries_read entries key v st e2 hup
                simp [updateRootSection, searchMapSection, hk, hup, h1]
            | none =>
                have hl : lookupYKey entries key = none :=
                  (updateEntries_none_iff entries key v st).mp hup
                simp [updateRootSection, searchMapSection, hk, hup, hl,
                  Option.map_eq_none', ih]
        | scalar s l c stl => simp [updateRootSection, searchMapSection, hk]
        | seq es l c => simp [updateRootSection, searchMapSection, hk]
      · simp [updateRootSection, searchMapSection, hk, Option.map_eq_none', ih]

theorem updateRootSection_lookup_other (content : List (YNode × YNode)) (sec key v : String)
    (st : YStyle) (c2 : List (YNode × YNode))
    (h : updateRootSection content sec key v st = some c2)
    (name : String) (hne : name ≠ sec) :
    lookupYKey c2 name = lookupYKey content name := by
  induction content generalizing c2 with
  | nil => simp [updateRootSection] at h
  | cons p rest ih =>
      obtain ⟨k, val⟩ := p
      by_cases hk : k.valueOf = sec
      · have hk2 : ¬(k.valueOf = name) := by rw [hk]; exact fun hcon => hne hcon.symm
        cases val with
        | mapping entries ml mc =>
            cases hup : updateEntries entries key v st with
            | some e2 =>
                simp only [updateRootSection, if_pos hk, hup, Option.some.injEq] at h
                subst h
                simp [lookupYKey, hk2]
            | none =>
                simp only [updateRootSection, if_pos hk, hup, Option.map_eq_some'] at h
                obtain ⟨r, hr, he⟩ := h
                subst he
                simp [lookupYKey, hk2, ih r hr]
        | scalar s l c stl => simp [updateRootSection, hk] at h
        | seq es l c => simp [updateRootSection, hk] at h
      · simp only [updateRootSection, if_neg hk, Option.map_eq_some'] at h
        obtain ⟨r, hr, he⟩ := h
        subst he
        by_cases hk2 : k.valueOf = name
        · simp [lookupYKey, hk2]
        · simp [lookupYKey, hk2, ih r hr]

theorem updateRootSection_findKind (content : List (YNode × YNode)) (sec key v : String)
    (st : YStyle) (c2 : List (YNode × YNode)) (rl rc : Nat)
    (h : updateRootSection content sec key v st = some c2) (hne : sec ≠ "kind") :
    findKind (.mapping c2 rl rc) = findKind (.mapping content rl rc) := by
  simp only [findKind]
  rw [updateRootSection_lookup_other content sec key v st c2 h "kind"
    (fun hcon => hne hcon.symm)]

/-- C2 (amended): the embedded-payload round trip
`ResolveEmbeddedContent (UpdateEmbeddedContent text key V) key = normalize V`
holds provided the stored entry the write targets is a scalar node (the Go code
mutates `Value` on any node kind, but a mutated mapping or sequence value
serializes from its children, so the written text is lost and read back as the
empty string — see the counterexample) and the normalized replacement is a byte
string (Go strings are byte strings; the base64 encoder consumes bytes). -/
theorem embedded_roundtrip (root : YNode) (key V : String) (root2 : YNode)
    (hbytes : IsByteStr (normalizeContent V))
    (hscalar : ∀ (content : List (YNode × YNode)) (l c : Nat),
        root = .mapping content l c →
        ∀ sec ∈ ["data", "binaryData", "stringData"],
        ∀ v0, updateTargetNode content sec key = some v0 → v0.isScalar = true)
    (hok : UpdateEmbeddedContent [root] key V = .ok root2) :
    ResolveEmbeddedContent [root2] key = .ok (normalizeContent V) := by
  cases root with
  | scalar s l c st => simp [UpdateEmbeddedContent] at hok
  | seq es l c => simp [UpdateEmbeddedContent] at hok
  | mapping content rl rc =>
    simp only [UpdateEmbeddedContent] at hok
    by_cases hCM : findKind (YNode.mapping content rl rc) = "ConfigMap"
    · rw [if_pos hCM] at hok
      cases hdata : updateRootSection content "data" key (normalizeContent V) .literal with
      | some c2 =>
          simp only [hdata] at hok
          injection hok with hroot
          subst hroot
          have hkind2 : findKind (YNode.mapping c2 rl rc) = "ConfigMap" := by
            rw [updateRootSection_findKind content "data" key _ _ c2 rl rc hdata (by decide)]
            exact hCM
          obtain ⟨v0, hv0, hs⟩ := updateRootSection_read content "data" key _ _ c2 hdata
          have hsc : v0.isScalar = true := hscalar content rl rc rfl "data" (by simp) v0 hv0
          have hval : (setScalarValue v0 (normalizeContent V) .literal).valueOf =
              normalizeContent V := by
            cases v0 with
            | scalar a b c d => rfl
            | mapping a b c => simp [YNode.isScalar] at hsc
            | seq a b c => simp [YNode.isScalar] at hsc
          rw [hval] at hs
          simp [ResolveEmbeddedContent, resolveEmbeddedContentDoc, hkind2, hs]
      | none =>
          simp only [hdata] at hok
          cases hbin : updateRootSection content "binaryData" key (normalizeContent V) .plain with
          | some c2 =>
              simp only [hbin] at hok
              injection hok with hroot
              subst hroot
              have hkind2 : findKind (YNode.mapping c2 rl rc) = "ConfigMap" := by
                rw [updateRootSection_findKind content "binaryData" key _ _ c2 rl rc hbin
                  (by decide)]
                exact hCM
              have hdataread : searchMapSection c2 "data" key = none := by
                rw [updateRootSection_other content "binaryData" key _ _ c2 hbin "data" key
                  (by decide)]
                exact (updateRootSection_none_iff content "data" key
                  (normalizeContent V) .literal).mp hdata
              obtain ⟨v0, hv0, hs⟩ := updateRootSection_read content "binaryData" key _ _ c2 hbin
              have hsc : v0.isScalar = true :=
                hscalar content rl rc rfl "binaryData" (by simp) v0 hv0
              have hval : (setScalarValue v0 (normalizeContent V) .plain).valueOf =
                  normalizeContent V := by
                cases v0 with
                | scalar a b c d => rfl
                | mapping a b c => simp [YNode.isScalar] at hsc
                | seq a b c => simp [YNode.isScalar] at hsc
              rw [hval] at hs
              simp [ResolveEmbeddedContent, resolveEmbeddedContentDoc, hkind2, hdataread, hs]
          | none =>
              simp only [hbin] at hok
              exact Except.noConfusion hok
    · rw [if_neg hCM] at hok
      by_cases hSec : findKind (YNode.mapping content rl rc) = "Secret"
      · rw [if_pos hSec] at hok
        cases hsd : updateRootSection content "stringData" key (normalizeContent V) .literal with
        | some c2 =>
            simp only [hsd] at hok
            injection hok with hroot
            subst hroot
            have hkind2 : findKind (YNode.mapping c2 rl rc) = "Secret" := by
              rw [updateRootSection_findKind content "stringData" key _ _ c2 rl rc hsd
                (by decide)]
              exact hSec
            obtain ⟨v0, hv0, hs⟩ := updateRootSection_read content "stringData" key _ _ c2 hsd
            have hsc : v0.isScalar = true :=
              hscalar content rl rc rfl "stringData" (by simp) v0 hv0
            have hval : (setScalarValue v0 (normalizeContent V) .literal).valueOf =
                normalizeContent V := by
              cases v0 with
              | scalar a b c d => rfl
              | mapping a b c => simp [YNode.isScalar] at hsc
              | seq a b c => simp [YNode.isScalar] at hsc
            rw [hval] at hs
            simp [ResolveEmbeddedContent, resolveEmbeddedContentDoc, hkind2, hs]
        | none =>
            simp only [hsd] at hok
            cases hdat : updateRootSection content "data" key
                (base64Encode (normalizeContent V)) .plain with
            | some c2 =>
                simp only [hdat] at hok
                injection hok with hroot
                subst hroot
                have hkind2 : findKind (YNode.mapping c2 rl rc) = "Secret" := by
                  rw [updateRootSection_findKind content "data" key _ _ c2 rl rc hdat
                    (by decide)]
                  exact hSec
                have hsdread : searchMapSection c2 "stringData" key = none := by
                  rw [updateRootSection_other content "data" key _ _ c2 hdat "stringData" key
                    (by decide)]
                  exact (updateRootSection_none_iff content "stringData" key
                    (normalizeContent V) .literal).mp hsd
                obtain ⟨v0, hv0, hs⟩ := updateRootSection_read content "data" key _ _ c2 hdat
                have hsc : v0.isScalar = true :=
                  hscalar content rl rc rfl "data" (by simp) v0 hv0
                have hval : (setScalarValue v0 (base64Encode (normalizeContent V))
                    .plain).valueOf = base64Encode (normalizeContent V) := by
                  cases v0 with
                  | scalar a b c d => rfl
                  | mapping a b c => simp [YNode.isScalar] at hsc
                  | seq a b c => simp [YNode.isScalar] at hsc
                rw [hval] at hs
                have hdec : base64Decode (base64Encode (normalizeContent V)) =
                    some (normalizeContent V) := base64Decode_base64Encode _ hbytes
                simp [ResolveEmbeddedContent, resolveEmbeddedContentDoc, hkind2, hsdread,
                  hs, hdec]
            | none =>
                simp only [hdat] at hok
                exact Except.noConfusion hok
      · rw [if_neg hSec] at hok
        exact Except.noConfusion hok

/-- C2 counterexample: the round trip fails without the scalar-target proviso.
In `cmNestedDoc` the key `k` holds a nested mapping; the write succeeds (the Go
code sets `Value` on the mapping node) yet leaves the serialized document
unchanged, and reading the key back yields the mapping's empty scalar value
instead of the written text. -/
theorem embedded_roundtrip_cex :
    UpdateEmbeddedContent [cmNestedDoc] "k" "x" = .ok cmNestedDoc ∧
    ResolveEmbeddedContent [cmNestedDoc] "k" ≠ .ok (normalizeContent "x") := by
  refine ⟨rfl, ?_⟩
  rw [show ResolveEmbeddedContent [cmNestedDoc] "k" = Except.ok "" from rfl,
    show normalizeContent "x" = "x" from rfl]
  intro hcon
  injection hcon with h3
  exact absurd h3 (by decide)

theorem embedded_roundtrip_witness :
    UpdateEmbeddedContent [cmPlainDoc] "k" "line1\r\nline2 \n" = .ok cmPlainDocUpdated ∧
    ResolveEmbeddedContent [cmPlainDocUpdated] "k" =
      .ok (normalizeContent "line1\r\nline2 \n") := by
  refine ⟨rfl, ?_⟩
  refine embedded_roundtrip cmPlainDoc "k" "line1\r\nline2 \n" cmPlainDocUpdated
    (by decide) ?_ rfl
  intro content l c heq sec hsec v0 hv0
  rw [show cmPlainDoc = YNode.mapping [
      (sc "kind" 1 1, sc "ConfigMap" 1 7),
      (sc "data" 2 1, .mapping [(sc "k" 3 3, sc "initial value" 3 6)] 3 3)] 1 1 from rfl]
    at heq
  injection heq with h1 h2 h3
  subst h1
  fin_cases hsec
  · simp only [updateTargetNode, lookupYKey, sc, YNode.valueOf, Option.some.injEq,
      String.reduceEq, reduceIte] at hv0
    subst hv0
    rfl
  · simp [updateTargetNode, lookupYKey, sc, YNode.valueOf] at hv0
  · simp [updateTargetNode, lookupYKey, sc, YNode.valueOf] at hv0

theorem updateRootSection_target (content : List (YNode × YNode)) (sec key v : String)
    (st : YStyle) (c2 : List (YNode × YNode))
    (h : updateRootSection content sec key v st = some c2) :
    ∃ v0, updateTargetNode content sec key = some v0 ∧
      updateTargetNode c2 sec key = some (setScalarValue v0 v st) := by
  induction content generalizing c2 with
  | nil => simp [updateRootSection] at h
  | cons p rest ih =>
      obtain ⟨k, val⟩ := p
      by_cases hk : k.valueOf = sec
      · cases val with
        | mapping entries ml mc =>
            cases hup : updateEntries entries key v st with
            | some e2 =>
                simp only [updateRootSection, if_pos hk, hup, Option.some.injEq] at h
                subst h
                obtain ⟨v0, h1, h2⟩ := updateEntries_read entries key v st e2 hup
                exact ⟨v0, by simp [updateTargetNode, hk, h1],
                  by simp [updateTargetNode, hk, h2]⟩
            | none =>
                simp only [updateRootSection, if_pos hk, hup, Option.map_eq_some'] at h
                obtain ⟨r, hr, he⟩ := h
                subst he
                obtain ⟨v0, h1, h2⟩ := ih r hr
                have hl : lookupYKey entries key = none :=
                  (updateEntries_none_iff entries key v st).mp hup
                exact ⟨v0, by simp [updateTargetNode, hk, hl, h1],
                  by simp [updateTargetNode, hk, hl, h2]⟩
        | scalar s l c stl => simp [updateRootSection, hk] at h
        | seq es l c => simp [updateRootSection, hk] at h
      · simp only [updateRootSection, if_neg hk, Option.map_eq_some'] at h
        obtain ⟨r, hr, he⟩ := h
        subst he
        obtain ⟨v0, h1, h2⟩ := ih r hr
        exact ⟨v0, by simp [updateTargetNode, hk, h1], by simp [updateTargetNode, hk, h2]⟩

/-- C8 (amended): a successful write normalizes the text and returns the whole
owning document with the value written into the first applicable section under
the kind-specific precedence (`ConfigMap`: `data` then `binaryData`; `Secret`:
`stringData` then `data`).  The block-literal style is forced only in the
`ConfigMap.data` and `Secret.stringData` cases; base64 re-encoding happens only
for `Secret.data`; a `ConfigMap.binaryData` write stores the normalized text
verbatim with the default style (no base64, no literal block) — see the
counterexample against the claimed behaviour. -/
theorem update_write_characterization (content : List (YNode × YNode)) (rl rc : Nat)
    (key V : String) (root2 : YNode)
    (hscalar : ∀ sec ∈ ["data", "binaryData", "stringData"],
        ∀ v0, updateTargetNode content sec key = some v0 → v0.isScalar = true)
    (hok : UpdateEmbeddedContent [.mapping content rl rc] key V = .ok root2) :
    (∃ c2, root2 = .mapping c2 rl rc) ∧
    ((findKind (.mapping content rl rc) = "ConfigMap" ∧
        searchMapSection content "data" key ≠ none ∧
        sectionEntryValue root2 "data" key = some (normalizeContent V, .literal)) ∨
     (findKind (.mapping content rl rc) = "ConfigMap" ∧
        searchMapSection content "data" key = none ∧
        sectionEntryValue root2 "binaryData" key = some (normalizeContent V, .plain)) ∨
     (findKind (.mapping content rl rc) = "Secret" ∧
        searchMapSection content "stringData" key ≠ none ∧
        sectionEntryValue root2 "stringData" key = some (normalizeContent V, .literal)) ∨
     (findKind (.mapping content rl rc) = "Secret" ∧
        searchMapSection content "stringData" key = none ∧
        sectionEntryValue root2 "data" key =
          some (base64Encode (normalizeContent V), .plain))) := by
  simp only [UpdateEmbeddedContent] at hok
  by_cases hCM : findKind (YNode.mapping content rl rc) = "ConfigMap"
  · rw [if_pos hCM] at hok
    cases hdata : updateRootSection content "data" key (normalizeContent V) .literal with
    | some c2 =>
        simp only [hdata] at hok
        injection hok with hroot
        subst hroot
        have hhit : searchMapSection content "data" key ≠ none := by
          intro hcon
          have hn := (updateRootSection_none_iff content "data" key
            (normalizeContent V) .literal).mpr hcon
          rw [hn] at hdata
          exact Option.noConfusion hdata
        obtain ⟨v0, hv0, h2⟩ := updateRootSection_target content "data" key _ _ c2 hdata
        have hsc := hscalar "data" (by simp) v0 hv0
        cases v0 with
        | scalar a b c d =>
            refine ⟨⟨c2, rfl⟩, Or.inl ⟨hCM, hhit, ?_⟩⟩
            simp [sectionEntryValue, h2, setScalarValue, YNode.valueOf, YNode.styleOf]
        | mapping a b c => simp [YNode.isScalar] at hsc
        | seq a b c => simp [YNode.isScalar] at hsc
    | none =>
        simp only [hdata] at hok
        cases hbin : updateRootSection content "binaryData" key (normalizeContent V) .plain with
        | some c2 =>
            simp only [hbin] at hok
            injection hok with hroot
            subst hroot
            have hmiss : searchMapSection content "data" key = none :=
              (updateRootSection_none_iff content "data" key
                (normalizeContent V) .literal).mp hdata
            obtain ⟨v0, hv0, h2⟩ := updateRootSection_target content "binaryData" key _ _ c2 hbin
            have hsc := hscalar "binaryData" (by simp) v0 hv0
            cases v0 with
            | scalar a b c d =>
                refine ⟨⟨c2, rfl⟩, Or.inr (Or.inl ⟨hCM, hmiss, ?_⟩)⟩
                simp [sectionEntryValue, h2, setScalarValue, YNode.valueOf, YNode.styleOf]
            | mapping a b c => simp [YNode.isScalar] at hsc
            | seq a b c => simp [YNode.isScalar] at hsc
        | none =>
            simp only [hbin] at hok
            exact Except.noConfusion hok
  · rw [if_neg hCM] at hok
    by_cases hSec : findKind (YNode.mapping content rl rc) = "Secret"
    · rw [if_pos hSec] at hok
      cases hsd : updateRootSection content "stringData" key (normalizeContent V) .literal with
      | some c2 =>
          simp only [hsd] at hok
          injection hok with hroot
          subst hroot
          have hhit : searchMapSection content "stringData" key ≠ none := by
            intro hcon
            have hn := (updateRootSection_none_iff content "stringData" key
              (normalizeContent V) .literal).mpr hcon
            rw [hn] at hsd
            exact Option.noConfusion hsd
          obtain ⟨v0, hv0, h2⟩ := updateRootSection_target content "stringData" key _ _ c2 hsd
          have hsc := hscalar "stringData" (by simp) v0 hv0
          cases v0 with
          | scalar a b c d =>
              refine ⟨⟨c2, rfl⟩, Or.inr (Or.inr (Or.inl ⟨hSec, hhit, ?_⟩))⟩
              simp [sectionEntryValue, h2, setScalarValue, YNode.valueOf, YNode.styleOf]
          | mapping a b c => simp [YNode.isScalar] at hsc
          | seq a b c => simp [YNode.isScalar] at hsc
      | none =>
          simp only [hsd] at hok
          cases hdat : updateRootSection content "data" key
              (base64Encode (normalizeContent V)) .plain with
          | some c2 =>
              simp only [hdat] at hok
              injection hok with hroot
              subst hroot
              have hmiss : searchMapSection content "stringData" key = none :=
                (updateRootSection_none_iff content "stringData" key
                  (normalizeContent V) .literal).mp hsd
              obtain ⟨v0, hv0, h2⟩ := updateRootSection_target content "data" key _ _ c2 hdat
              have hsc := hscalar "data" (by simp) v0 hv0
              cases v0 with
              | scalar a b c d =>
                  refine ⟨⟨c2, rfl⟩, Or.inr (Or.inr (Or.inr ⟨hSec, hmiss, ?_⟩))⟩
                  simp [sectionEntryValue, h2, setScalarValue, YNode.valueOf, YNode.styleOf]
              | mapping a b c => simp [YNode.isScalar] at hsc
              | seq a b c => simp [YNode.isScalar] at hsc
          | none =>
              simp only [hdat] at hok
              exact Except.noConfusion hok
    · rw [if_neg hSec] at hok
      exact Except.noConfusion hok

/-- C8 counterexample: writing `hi` into a key present only under a ConfigMap
`binaryData` section stores the text verbatim with the default style, not the
base64 encoding `aGk=` and not the block-literal style the claim requires for
every write. -/
theorem update_write_characterization_cex :
    UpdateEmbeddedContent [cmBinDoc] "k" "hi" = .ok cmBinDocUpdated ∧
    sectionEntryValue cmBinDocUpdated "binaryData" "k" = some ("hi", .plain) ∧
    base64Encode (normalizeContent "hi") = "aGk=" ∧
    ("hi" : String) ≠ "aGk=" ∧ YStyle.plain ≠ YStyle.literal := by
  exact ⟨rfl, rfl, rfl, by decide, by decide⟩

theorem update_write_characterization_witness :
    (∃ c2, cmPlainDocUpdated = YNode.mapping c2 1 1) ∧
    ((findKind (.mapping cmPlainContent 1 1) = "ConfigMap" ∧
        searchMapSection cmPlainContent "data" "k" ≠ none ∧
        sectionEntryValue cmPlainDocUpdated "data" "k" =
          some (normalizeContent "line1\r\nline2 \n", .literal)) ∨
     (findKind (.mapping cmPlainContent 1 1) = "ConfigMap" ∧
        searchMapSection cmPlainContent "data" "k" = none ∧
        sectionEntryValue cmPlainDocUpdated "binaryData" "k" =
          some (normalizeContent "line1\r\nline2 \n", .plain)) ∨
     (findKind (.mapping cmPlainContent 1 1) = "Secret" ∧
        searchMapSection cmPlainContent "stringData" "k" ≠ none ∧
        sectionEntryValue cmPlainDocUpdated "stringData" "k" =
          some (normalizeContent "line1\r\nline2 \n", .literal)) ∨
     (findKind (.mapping cmPlainContent 1 1) = "Secret" ∧
        searchMapSection cmPlainContent "stringData" "k" = none ∧
        sectionEntryValue cmPlainDocUpdated "data" "k" =
          some (base64Encode (normalizeContent "line1\r\nline2 \n"), .plain))) := by
  refine update_write_characterization cmPlainContent 1 1 "k" "line1\r\nline2 \n"
    cmPlainDocUpdated ?_ rfl
  intro sec hsec v0 hv0
  fin_cases hsec
  · simp only [cmPlainContent, updateTargetNode, lookupYKey, sc, YNode.valueOf,
      Option.some.injEq, String.reduceEq, reduceIte] at hv0
    subst hv0
    rfl
  · simp [cmPlainContent, updateTargetNode, lookupYKey, sc, YNode.valueOf] at hv0
  · simp [cmPlainContent, updateTargetNode, lookupYKey, sc, YNode.valueOf] at hv0

/-- C9: a lookup miss is never an error.  When every branch of the reference
chain misses on every document, `ResolveReferences` returns the empty list
(its Go counterpart returns a nil error on every post-parse path, which is why
the embedding returns the list directly); likewise for `ResolveDefinition`.
Only the embedded-content operations signal a miss: when the requested key is
absent from every applicable section of every document, the read returns the
`keyNotFound` error carrying the key, and so does the write on a stream whose
first document is a `ConfigMap` or `Secret` lacking the key. -/
theorem lookup_miss_not_error (cfg : Config) (store : Store) (fs : FileSystem)
    (docs : List YNode) (uri : String) (line col : Nat) (key : String) :
    ((∀ root ∈ docs, ∀ node parent path,
        findNodeAt root (line + 1) (col + 1) = some (node, parent, path) →
        refsBranchSubPath store fs root node parent path = none ∧
        refsBranchCMKey store root node parent path uri line col = none ∧
        refsBranchPVC root node path uri line col = none ∧
        refsBranchMetaName store root path uri line col = none ∧
        refsBranchMetaNS store node path uri line col = none ∧
        refsBranchSymbols store (findKind root) node path uri line col cfg.symbols = none ∧
        refsBranchRules store root (findKind root) node path uri line col cfg.references
          = none) →
      ResolveReferences cfg store fs docs uri line col = []) ∧
    ((∀ root ∈ docs, ∀ node parent path,
        findNodeAt root (line + 1) (col + 1) = some (node, parent, path) →
        defBranchVolumeMountName root node path uri (calculateOriginRange node) = none ∧
        defBranchCMEmbedded root node parent path uri (calculateOriginRange node) = none ∧
        defBranchSymbols cfg (findKind root) node path uri (calculateOriginRange node)
          = none ∧
        defBranchRules cfg store root (findKind root) node parent path
          (calculateOriginRange node) = none) →
      ResolveDefinition cfg store docs uri line col = []) ∧
    ((∀ root ∈ docs, ∀ content l c, root = .mapping content l c →
        (findKind root = "ConfigMap" →
          searchMapSection content "data" key = none ∧
          searchMapSection content "binaryData" key = none) ∧
        (findKind root = "Secret" →
          searchMapSection content "stringData" key = none ∧
          searchMapSection content "data" key = none)) →
      ResolveEmbeddedContent docs key = .error (.keyNotFound key)) ∧
    (∀ root rest content l c V, docs = root :: rest → root = .mapping content l c →
        (findKind root = "ConfigMap" ∨ findKind root = "Secret") →
        (findKind root = "ConfigMap" →
          searchMapSection content "data" key = none ∧
          searchMapSection content "binaryData" key = none) →
        (findKind root = "Secret" →
          searchMapSection content "stringData" key = none ∧
          searchMapSection content "data" key = none) →
      UpdateEmbeddedContent docs key V = .error (.keyNotFound key)) := by
  refine ⟨?_, ?_, ?_, ?_⟩
  · intro hmiss
    show resolveReferencesDocs cfg store fs docs uri line col = []
    induction docs with
    | nil => rfl
    | cons root rest ih =>
        have hdoc : resolveReferencesDoc cfg store fs root uri line col = none := by
          unfold resolveReferencesDoc
          cases hfind : findNodeAt root (line + 1) (col + 1) with
          | none => rfl
          | some triple =>
              obtain ⟨node, parent, path⟩ := triple
              obtain ⟨b1, b2, b3, b4, b5, b6, b7⟩ :=
                hmiss root (by simp) node parent path hfind
              simp [b1, b2, b3, b4, b5, b6, b7, Option.orElse]
        simp only [resolveReferencesDocs, hdoc]
        exact ih (fun root hr => hmiss root (by simp [hr]))
  · intro hmiss
    show resolveDefinitionDocs cfg store docs uri line col = []
    induction docs with
    | nil => rfl
    | cons root rest ih =>
        cases hfind : findNodeAt root (line + 1) (col + 1) with
        | none =>
            have hdoc : resolveDefinitionDoc cfg store root uri line col = none := by
              unfold resolveDefinitionDoc
              rw [hfind]
            simp only [resolveDefinitionDocs, hdoc]
            exact ih (fun root hr => hmiss root (by simp [hr]))
        | some triple =>
            obtain ⟨node, parent, path⟩ := triple
            obtain ⟨b1, b2, b3, b4⟩ := hmiss root (by simp) node parent path hfind
            have hdoc : resolveDefinitionDoc cfg store root uri line col = some [] := by
              unfold resolveDefinitionDoc
              rw [hfind]
              simp [b1, b2, b3, b4, Option.orElse]
            simp only [resolveDefinitionDocs, hdoc]
  · intro hmiss
    induction docs with
    | nil => rfl
    | cons root rest ih =>
        have hdoc : resolveEmbeddedContentDoc root key = none := by
          cases root with
          | scalar a b c d => rfl
          | seq a b c => rfl
          | mapping content l c =>
              obtain ⟨hcm, hsec⟩ := hmiss _ (by simp) content l c rfl
              unfold resolveEmbeddedContentDoc
              by_cases hCM : findKind (YNode.mapping content l c) = "ConfigMap"
              · obtain ⟨hd, hb⟩ := hcm hCM
                simp [hCM, hd, hb]
              · by_cases hS : findKind (YNode.mapping content l c) = "Secret"
                · obtain ⟨hsd, hd⟩ := hsec hS
                  simp [hCM, hS, hsd, hd]
                · simp [hCM, hS]
        simp only [ResolveEmbeddedContent, hdoc]
        exact ih (fun root hr => hmiss root (by simp [hr]))
  · intro root rest content l c V hdocs hroot hkind hcm hsec
    subst hdocs
    subst hroot
    simp only [UpdateEmbeddedContent]
    cases hkind with
    | inl hCM =>
        obtain ⟨hd, hb⟩ := hcm hCM
        have hd2 : updateRootSection content "data" key (normalizeContent V) .literal
            = none :=
          (updateRootSection_none_iff content "data" key (normalizeContent V) .literal).mpr hd
        have hb2 : updateRootSection content "binaryData" key (normalizeContent V) .plain
            = none :=
          (updateRootSection_none_iff content "binaryData" key
            (normalizeContent V) .plain).mpr hb
        simp [hCM, hd2, hb2]
    | inr hS =>
        obtain ⟨hsd, hd⟩ := hsec hS
        have hsd2 : updateRootSection content "stringData" key (normalizeContent V) .literal
            = none :=
          (updateRootSection_none_iff content "stringData" key
            (normalizeContent V) .literal).mpr hsd
        have hd2 : updateRootSection content "data" key
            (base64Encode (normalizeContent V)) .plain = none :=
          (updateRootSection_none_iff content "data" key
            (base64Encode (normalizeContent V)) .plain).mpr hd
        by_cases hCM : findKind (YNode.mapping content l c) = "ConfigMap"
        · rw [hCM] at hS
          exact absurd hS (by decide)
        · simp [hCM, hS, hsd2, hd2]

theorem lookup_miss_not_error_witness :
    ResolveReferences cfgEmpty storeC1 fsEmpty [cmOtherKeyDoc] "file:///x.yaml" 100 0 = [] ∧
    ResolveDefinition cfgEmpty storeC1 [cmOtherKeyDoc] "file:///x.yaml" 100 0 = [] ∧
    ResolveEmbeddedContent [cmOtherKeyDoc] "k" = .error (.keyNotFound "k") ∧
    UpdateEmbeddedContent [cmOtherKeyDoc] "k" "v" = .error (.keyNotFound "k") := by
  obtain ⟨h1, h2, h3, h4⟩ := lookup_miss_not_error cfgEmpty storeC1 fsEmpty [cmOtherKeyDoc]
    "file:///x.yaml" 100 0 "k"
  refine ⟨h1 ?_, h2 ?_, h3 ?_,
    h4 cmOtherKeyDoc [] _ 1 1 "v" rfl rfl (Or.inl rfl)
      (fun _ => ⟨rfl, rfl⟩) (fun hcon => absurd hcon (by decide))⟩
  · intro root hroot node parent path hfind
    simp only [List.mem_singleton] at hroot
    subst hroot
    rw [show findNodeAt cmOtherKeyDoc 101 1
        = (none : Option (YNode × Option YNode × List String)) from rfl] at hfind
    exact Option.noConfusion hfind
  · intro root hroot node parent path hfind
    simp only [List.mem_singleton] at hroot
    subst hroot
    rw [show findNodeAt cmOtherKeyDoc 101 1
        = (none : Option (YNode × Option YNode × List String)) from rfl] at hfind
    exact Option.noConfusion hfind
  · intro root hroot content l c heq
    simp only [List.mem_singleton] at hroot
    subst hroot
    rw [show cmOtherKeyDoc = YNode.mapping [
        (sc "kind" 1 1, sc "ConfigMap" 1 7),
        (sc "data" 2 1, .mapping [(sc "other" 3 3, sc "v" 3 10)] 3 3)] 1 1 from rfl] at heq
    injection heq with hc hl hcc
    subst hc
    exact ⟨fun _ => ⟨rfl, rfl⟩, fun hcon => absurd hcon (by decide)⟩

/-- C10: on a Secret whose queried key exists only under `data` and whose
stored value is not valid standard base64, the embedded-content read fails with
the decode error carrying the key instead of returning the raw stored value. -/
theorem secret_bad_base64_read_error (root : YNode) (rest : List YNode)
    (content : List (YNode × YNode)) (l c : Nat) (key v : String)
    (hroot : root = .mapping content l c)
    (hkind : findKind root = "Secret")
    (hsd : searchMapSection content "stringData" key = none)
    (hdat : searchMapSection content "data" key = some v)
    (hbad : base64Decode v = none) :
    ResolveEmbeddedContent (root :: rest) key = .error (.decodeFailed key) := by
  subst hroot
  have hdoc : resolveEmbeddedContentDoc (.mapping content l c) key
      = some (.error (.decodeFailed key)) := by
    unfold resolveEmbeddedContentDoc
    simp [hkind, hsd, hdat, hbad]
  simp [ResolveEmbeddedContent, hdoc]

theorem secret_bad_base64_read_error_witness :
    ResolveEmbeddedContent [secretBadB64Doc] "k" = .error (.decodeFailed "k") :=
  secret_bad_base64_read_error secretBadB64Doc [] _ 1 1 "k" "%" rfl rfl rfl rfl (by decide)

/-! ## subPath-to-key resolution against the spec's items description -/

theorem resolveKeyFromItemsList_cons_eq (item : YNode) (rest : List YNode) (sub : String) :
    resolveKeyFromItemsList (item :: rest) sub =
      (match specEffectiveFilename item with
       | some fn => if fn = sub then specEntryKey item else resolveKeyFromItemsList rest sub
       | none => resolveKeyFromItemsList rest sub) := by
  cases item with
  | scalar a b c d => rfl
  | seq a b c => rfl
  | mapping entries ml mc =>
      cases hkey : getMappingScalarValueN (YNode.mapping entries ml mc) "key" with
      | none =>
          have h1 : specEffectiveFilename (YNode.mapping entries ml mc) = none := by
            unfold specEffectiveFilename specEntryKey
            rw [hkey]
            rfl
          rw [h1]
          simp only [resolveKeyFromItemsList, hkey]
      | some keyNode =>
          have hentry : specEntryKey (YNode.mapping entries ml mc) = some keyNode.valueOf := by
            unfold specEntryKey
            rw [hkey]
            rfl
          cases hpath : getMappingScalarValueN (YNode.mapping entries ml mc) "path" with
          | none =>
              have h1 : specEffectiveFilename (YNode.mapping entries ml mc)
                  = some keyNode.valueOf := by
                unfold specEffectiveFilename
                rw [hentry, hpath]
              rw [h1]
              simp [resolveKeyFromItemsList, hkey, hpath, hentry]
          | some pathNode =>
              by_cases hpv : pathNode.valueOf = ""
              · have h1 : specEffectiveFilename (YNode.mapping entries ml mc)
                    = some keyNode.valueOf := by
                  unfold specEffectiveFilename
                  rw [hentry, hpath]
                  simp [hpv]
                rw [h1]
                simp [resolveKeyFromItemsList, hkey, hpath, hentry, hpv]
              · have h1 : specEffectiveFilename (YNode.mapping entries ml mc)
                    = some pathNode.valueOf := by
                  unfold specEffectiveFilename
                  rw [hentry, hpath]
                  simp [hpv]
                rw [h1]
                simp [resolveKeyFromItemsList, hkey, hpath, hentry, hpv]

theorem specItemsLookup_cons_eq (item : YNode) (rest : List YNode) (sub : String) :
    specItemsLookup (item :: rest) sub =
      (match specEffectiveFilename item with
       | some fn => if fn = sub then specEntryKey item else specItemsLookup rest sub
       | none => specItemsLookup rest sub) := by
  cases heff : specEffectiveFilename item with
  | none =>
      unfold specItemsLookup
      rw [List.find?_cons_of_neg _ (fun hcon => by
        rw [heff] at hcon
        exact Bool.noConfusion hcon)]
  | some fn =>
      by_cases hm : fn = sub
      · unfold specItemsLookup
        rw [List.find?_cons_of_pos _ (by
          show (specEffectiveFilename item == some sub) = true
          rw [heff, hm]
          exact beq_self_eq_true _)]
        simp [hm]
      · unfold specItemsLookup
        rw [List.find?_cons_of_neg _ (fun hcon => by
          rw [heff] at hcon
          exact hm (Option.some.inj (eq_of_beq hcon)))]
        simp [hm]

theorem resolveKeyFromItemsList_eq_spec (es : List YNode) (sub : String) :
    resolveKeyFromItemsList es sub = specItemsLookup es sub := by
  induction es with
  | nil => rfl
  | cons item rest ih =>
      rw [resolveKeyFromItemsList_cons_eq, specItemsLookup_cons_eq, ih]

/-- C4 (amended): the subPath-to-payload-key mapping of a volume source.  An
absent `items` maps the subPath to itself verbatim; a present but
non-sequence `items` node is also treated as absent (mapped verbatim — the
deviation from the claim, see the counterexample); a sequence `items` resolves
exactly as the spec describes, through the first entry whose effective
filename (`path` override when non-empty, else `key`) equals the subPath; and
a resolved key whose resource and payload entry are found produces exactly the
key's file location in the owning resource's source file followed by the
virtual-file location for the same key. -/
theorem subpath_items_resolution :
    (∀ sub : String, resolveKeyFromItems none sub = some sub) ∧
    (∀ (items : YNode) (sub : String), items.isSeq = false →
        resolveKeyFromItems (some items) sub = some sub) ∧
    (∀ (es : List YNode) (l c : Nat) (sub : String),
        resolveKeyFromItems (some (.seq es l c)) sub = specItemsLookup es sub) ∧
    (∀ (store : Store) (fs : FileSystem) (ns kind resName key : String)
        (res : K8sResource) (keyNode valNode : YNode),
        resName ≠ "" → key ≠ "" →
        addTargetStoreLookup store kind ns resName = some res →
        findResourceDataEntryInFile fs res.filePath kind ns resName key
          = some (keyNode, valNode) →
        addResourceTargetLocs store fs ns kind resName key =
          [⟨"file://" ++ res.filePath, calculateOriginRange keyNode⟩,
           ⟨embeddedURI ns resName key ("file://" ++ res.filePath),
             ⟨⟨0, 0⟩, ⟨0, 0⟩⟩⟩]) := by
  refine ⟨fun sub => rfl, ?_, ?_, ?_⟩
  · intro items sub hns
    cases items with
    | scalar a b c d => rfl
    | mapping a b c => rfl
    | seq a b c => simp [YNode.isSeq] at hns
  · intro es l c sub
    exact resolveKeyFromItemsList_eq_spec es sub
  · intro store fs ns kind resName key res keyNode valNode h1 h2 h3 h4
    unfold addResourceTargetLocs
    rw [if_neg (by simp [h1, h2])]
    simp only [h3, h4]

/-- C4 counterexample: the claim's items clause fails on a present,
non-sequence `items` node.  With `items` a scalar, the source maps the subPath
to itself even though no entry matches, contradicting the requirement that a
produced key come from an entry whose effective filename equals the subPath. -/
theorem subpath_items_resolution_cex : ¬ specC4ItemsProp := by
  intro h
  obtain ⟨e, he, -⟩ := h (sc "x" 1 1) "a.conf" "a.conf" rfl
  simp [specItemEntries, sc] at he

theorem subpath_items_resolution_witness :
    resolveKeyFromItems none "a.conf" = some "a.conf" ∧
    resolveKeyFromItems (some (sc "x" 1 1)) "a.conf" = some "a.conf" ∧
    resolveKeyFromItems (some (.seq [] 1 1)) "a.conf" = specItemsLookup [] "a.conf" ∧
    addResourceTargetLocs storeC5 fsC5 "default" "ConfigMap" "my-cm" "a.conf" =
      [⟨"file://" ++ cmResC5.filePath, calculateOriginRange (sc "a.conf" 14 24)⟩,
       ⟨embeddedURI "default" "my-cm" "a.conf" ("file://" ++ cmResC5.filePath),
         ⟨⟨0, 0⟩, ⟨0, 0⟩⟩⟩] := by
  obtain ⟨p1, p2, p3, p4⟩ := subpath_items_resolution
  exact ⟨p1 "a.conf", p2 (sc "x" 1 1) "a.conf" rfl, p3 [] 1 1 "a.conf",
    p4 storeC5 fsC5 "default" "ConfigMap" "my-cm" "a.conf" cmResC5
      (sc "a.conf" 14 24) (sc "x" 14 33) (by decide) (by decide) rfl rfl⟩

/-! ## Query-site filtering across the reference branch chain -/

theorem refsBranchCMKey_filtered (store : Store) (root node : YNode) (parent : Option YNode)
    (path : List String) (uri : String) (line col : Nat) (r : List Location)
    (h : refsBranchCMKey store root node parent path uri line col = some r) :
    ∀ loc ∈ r, ¬(loc.uri = uri ∧ rangeContainsPosition loc.range ⟨line, col⟩ = true) := by
  unfold refsBranchCMKey at h
  split at h
  · injection h with hr
    subst hr
    exact mem_filterOut_not_at_query _ _ _ _
  · exact Option.noConfusion h

theorem refsBranchPVC_filtered (root node : YNode) (path : List String) (uri : String)
    (line col : Nat) (r : List Location)
    (h : refsBranchPVC root node path uri line col = some r) :
    ∀ loc ∈ r, ¬(loc.uri = uri ∧ rangeContainsPosition loc.range ⟨line, col⟩ = true) := by
  unfold refsBranchPVC at h
  split at h
  · dsimp only [] at h
    split at h
    · exact Option.noConfusion h
    · injection h with hr
      subst hr
      exact mem_filterOut_not_at_query _ _ _ _
  · exact Option.noConfusion h

theorem refsBranchMetaName_filtered (store : Store) (root : YNode) (path : List String)
    (uri : String) (line col : Nat) (r : List Location)
    (h : refsBranchMetaName store root path uri line col = some r) :
    ∀ loc ∈ r, ¬(loc.uri = uri ∧ rangeContainsPosition loc.range ⟨line, col⟩ = true) := by
  unfold refsBranchMetaName at h
  split at h
  · dsimp only [] at h
    split at h
    · injection h with hr
      subst hr
      exact mem_filterOut_not_at_query _ _ _ _
    · exact Option.noConfusion h
  · exact Option.noConfusion h

theorem refsBranchMetaNS_filtered (store : Store) (node : YNode) (path : List String)
    (uri : String) (line col : Nat) (r : List Location)
    (h : refsBranchMetaNS store node path uri line col = some r) :
    ∀ loc ∈ r, ¬(loc.uri = uri ∧ rangeContainsPosition loc.range ⟨line, col⟩ = true) := by
  unfold refsBranchMetaNS at h
  split at h
  · injection h with hr
    subst hr
    exact mem_filterOut_not_at_query _ _ _ _
  · exact Option.noConfusion h

theorem refsSymbolDefsLoop_filtered (store : Store) (kind : String) (node : YNode)
    (path : List String) (uri : String) (line col : Nat) (symName : String)
    (defs : List SymbolDefinition) (r : List Location)
    (h : refsSymbolDefsLoop store kind node path uri line col symName defs = some r) :
    ∀ loc ∈ r, ¬(loc.uri = uri ∧ rangeContainsPosition loc.range ⟨line, col⟩ = true) := by
  induction defs with
  | nil => exact Option.noConfusion h
  | cons d rest ih =>
      unfold refsSymbolDefsLoop at h
      dsimp only [] at h
      split at h
      · injection h with hr
        subst hr
        exact mem_filterOut_not_at_query _ _ _ _
      · exact ih h

theorem refsBranchSymbols_filtered (store : Store) (kind : String) (node : YNode)
    (path : List String) (uri : String) (line col : Nat) (syms : List Symbol)
    (r : List Location)
    (h : refsBranchSymbols store kind node path uri line col syms = some r) :
    ∀ loc ∈ r, ¬(loc.uri = uri ∧ rangeContainsPosition loc.range ⟨line, col⟩ = true) := by
  induction syms with
  | nil => exact Option.noConfusion h
  | cons sym rest ih =>
      unfold refsBranchSymbols at h
      cases hl : refsSymbolDefsLoop store kind node path uri line col sym.name
          sym.definitions with
      | some r2 =>
          rw [hl] at h
          injection h with hr
          subst hr
          exact refsSymbolDefsLoop_filtered _ _ _ _ _ _ _ _ _ _ hl
      | none =>
          rw [hl] at h
          exact ih h

theorem refsBranchRules_filtered (store : Store) (root : YNode) (kind : String) (node : YNode)
    (path : List String) (uri : String) (line col : Nat) (rules : List ConfigReference)
    (r : List Location)
    (h : refsBranchRules store root kind node path uri line col rules = some r) :
    ∀ loc ∈ r, ¬(loc.uri = uri ∧ rangeContainsPosition loc.range ⟨line, col⟩ = true) := by
  induction rules with
  | nil => exact Option.noConfusion h
  | cons rule rest ih =>
      unfold refsBranchRules at h
      dsimp only [] at h
      split at h
      · split at h
        · injection h with hr
          subst hr
          exact mem_filterOut_not_at_query _ _ _ _
        · split at h
          · injection h with hr
            subst hr
            exact mem_filterOut_not_at_query _ _ _ _
          · exact ih h
      · exact ih h

theorem resolveReferencesDoc_filtered (cfg : Config) (store : Store) (fs : FileSystem)
    (root : YNode) (uri : String) (line col : Nat) (r : List Location)
    (h : resolveReferencesDoc cfg store fs root uri line col = some r)
    (hsub : ∀ node parent path,
        findNodeAt root (line + 1) (col + 1) = some (node, parent, path) →
        refsBranchSubPath store fs root node parent path = none) :
    ∀ loc ∈ r, ¬(loc.uri = uri ∧ rangeContainsPosition loc.range ⟨line, col⟩ = true) := by
  unfold resolveReferencesDoc at h
  cases hfind : findNodeAt root (line + 1) (col + 1) with
  | none =>
      rw [hfind] at h
      exact Option.noConfusion h
  | some triple =>
      obtain ⟨node, parent, path⟩ := triple
      rw [hfind] at h
      dsimp only [] at h
      have hOrNone : ∀ (f : Unit → Option (List Location)),
          Option.orElse none f = f () := fun f => rfl
      have hOrSome : ∀ (x : List Location) (f : Unit → Option (List Location)),
          Option.orElse (some x) f = some x := fun x f => rfl
      rw [hsub node parent path hfind, hOrNone] at h
      cases h2 : refsBranchCMKey store root node parent path uri line col with
      | some r2 =>
          rw [h2, hOrSome] at h
          injection h with hr
          subst hr
          exact refsBranchCMKey_filtered _ _ _ _ _ _ _ _ _ h2
      | none =>
      rw [h2, hOrNone] at h
      cases h3 : refsBranchPVC root node path uri line col with
      | some r2 =>
          rw [h3, hOrSome] at h
          injection h with hr
          subst hr
          exact refsBranchPVC_filtered _ _ _ _ _ _ _ h3
      | none =>
      rw [h3, hOrNone] at h
      cases h4 : refsBranchMetaName store root path uri line col with
      | some r2 =>
          rw [h4, hOrSome] at h
          injection h with hr
          subst hr
          exact refsBranchMetaName_filtered _ _ _ _ _ _ _ h4
      | none =>
      rw [h4, hOrNone] at h
      cases h5 : refsBranchMetaNS store node path uri line col with
      | some r2 =>
          rw [h5, hOrSome] at h
          injection h with hr
          subst hr
          exact refsBranchMetaNS_filtered _ _ _ _ _ _ _ h5
      | none =>
      rw [h5, hOrNone] at h
      cases h6 : refsBranchSymbols store (findKind root) node path uri line col
          cfg.symbols with
      | some r2 =>
          rw [h6, hOrSome] at h
          injection h with hr
          subst hr
          exact refsBranchSymbols_filtered _ _ _ _ _ _ _ _ _ h6
      | none =>
      rw [h6, hOrNone] at h
      exact refsBranchRules_filtered _ _ _ _ _ _ _ _ _ _ h

/-- C5 (amended): `ResolveReferences` never reports the query site itself
provided the `volumeMounts[].subPath` branch does not fire — that branch
returns its assembled targets without the query-site filter, and the
counterexample shows it reporting the cursor's own containing range.  Every
other result-producing branch applies `filterOutLocationAtPosition`, so under
the branch-miss hypothesis no returned location combines the query URI with a
range containing the cursor. -/
theorem refs_no_self_location (cfg : Config) (store : Store) (fs : FileSystem)
    (docs : List YNode) (uri : String) (line col : Nat)
    (hsub : ∀ root ∈ docs, ∀ node parent path,
        findNodeAt root (line + 1) (col + 1) = some (node, parent, path) →
        refsBranchSubPath store fs root node parent path = none) :
    ∀ loc ∈ ResolveReferences cfg store fs docs uri line col,
      ¬(loc.uri = uri ∧ rangeContainsPosition loc.range ⟨line, col⟩ = true) := by
  show ∀ loc ∈ resolveReferencesDocs cfg store fs docs uri line col, _
  induction docs with
  | nil =>
      intro loc hm
      exact absurd hm (by simp [resolveReferencesDocs])
  | cons root rest ih =>
      cases hdoc : resolveReferencesDoc cfg store fs root uri line col with
      | some r =>
          have he : resolveReferencesDocs cfg store fs (root :: rest) uri line col = r := by
            simp [resolveReferencesDocs, hdoc]
          rw [he]
          exact resolveReferencesDoc_filtered cfg store fs root uri line col r hdoc
            (fun node parent path hf => hsub root (by simp) node parent path hf)
      | none =>
          have he : resolveReferencesDocs cfg store fs (root :: rest) uri line col
              = resolveReferencesDocs cfg store fs rest uri line col := by
            simp [resolveReferencesDocs, hdoc]
          rw [he]
          exact ih (fun root hr => hsub root (by simp [hr]))

/-- C5 counterexample: with the cursor on a `volumeMounts[].subPath` value
whose ConfigMap key token sits at the cursor's own coordinates in the re-read
file, the subPath branch returns the query site itself — its targets bypass
the query-site filter. -/
theorem refs_no_self_location_cex :
    ResolveReferences cfgEmpty storeC5 fsC5 [deployDocC5] "file:///w.yaml" 13 23 =
      [⟨"file:///w.yaml", ⟨⟨13, 23⟩, ⟨13, 29⟩⟩⟩,
       ⟨embeddedURI "default" "my-cm" "a.conf" "file:///w.yaml", ⟨⟨0, 0⟩, ⟨0, 0⟩⟩⟩] ∧
    rangeContainsPosition ⟨⟨13, 23⟩, ⟨13, 29⟩⟩ ⟨13, 23⟩ = true :=
  ⟨rfl, rfl⟩

theorem refs_no_self_location_witness :
    ¬((⟨"file:///b.yaml", ⟨⟨10, 20⟩, ⟨10, 23⟩⟩⟩ : Location).uri = "file:///a.yaml" ∧
      rangeContainsPosition (⟨"file:///b.yaml", ⟨⟨10, 20⟩, ⟨10, 23⟩⟩⟩ : Location).range
        ⟨3, 8⟩ = true) := by
  refine refs_no_self_location cfgEmpty storeC1 fsEmpty [svcDocC1] "file:///a.yaml" 3 8 ?_
    ⟨"file:///b.yaml", ⟨⟨10, 20⟩, ⟨10, 23⟩⟩⟩ ?_
  · intro root hroot node parent path hfind
    simp only [List.mem_singleton] at hroot
    subst hroot
    rw [show findNodeAt svcDocC1 4 9 = some (sc "svc" 4 9,
        some (.mapping [(sc "name" 4 3, sc "svc" 4 9)] 4 3),
        ["metadata", "name"]) from rfl] at hfind
    injection hfind with h1
    injection h1 with h2 h3
    injection h3 with h4 h5
    subst h2
    subst h4
    subst h5
    rfl
  · rw [show ResolveReferences cfgEmpty storeC1 fsEmpty [svcDocC1] "file:///a.yaml" 3 8 =
        [⟨"file:///b.yaml", ⟨⟨10, 20⟩, ⟨10, 23⟩⟩⟩] from rfl]
    exact List.mem_singleton.mpr rfl

/-! ## Filter decomposition over gathered reference lists -/

theorem filterOut_cons_at (x : Location) (l : List Location) (uri : String) (line col : Nat)
    (hx : x.uri = uri) (hr : rangeContainsPosition x.range ⟨line, col⟩ = true) :
    filterOutLocationAtPosition (x :: l) uri line col
      = filterOutLocationAtPosition l uri line col := by
  unfold filterOutLocationAtPosition
  simp [List.filter_cons, hx, hr]

theorem filterOut_cons_not_at (x : Location) (l : List Location) (uri : String)
    (line col : Nat)
    (hx : ¬(x.uri = uri ∧ rangeContainsPosition x.range ⟨line, col⟩ = true)) :
    filterOutLocationAtPosition (x :: l) uri line col
      = x :: filterOutLocationAtPosition l uri line col := by
  unfold filterOutLocationAtPosition
  simp [List.filter_cons, hx]

theorem filterOut_all_kept (l : List Location) (uri : String) (line col : Nat)
    (h : ∀ loc ∈ l, ¬(loc.uri = uri ∧ rangeContainsPosition loc.range ⟨line, col⟩ = true)) :
    filterOutLocationAtPosition l uri line col = l := by
  unfold filterOutLocationAtPosition
  apply List.filter_eq_self.mpr
  intro a ha
  have hna := h a ha
  by_cases hu : a.uri = uri
  · have hb : rangeContainsPosition a.range ⟨line, col⟩ = false := by
      cases hb : rangeContainsPosition a.range ⟨line, col⟩
      · rfl
      · exact absurd ⟨hu, hb⟩ hna
    simp [hu, hb]
  · simp [hu]

/-- C1 (amended): the `metadata.name` reference query gathers the stored
definition location followed by the N stored occurrences and then filters out
the query site.  Hence a query from the definition site returns exactly the N
occurrences (not N+1: the definition's own token is filtered away, see the
counterexample), a query from an occurrence returns the definition followed by
the occurrences surviving the filter (excluding the occurrence itself), and
with the cursor on `metadata.name`, after the earlier branches miss,
`ResolveReferences` returns exactly this filtered gather. -/
theorem metaname_refs_characterization :
    (∀ (store : Store) (kind name ns uri : String) (line col : Nat) (d : K8sResource),
        store.Get kind ns name = some d →
        (locOfResourceDef d).uri = uri →
        rangeContainsPosition (locOfResourceDef d).range ⟨line, col⟩ = true →
        (∀ loc ∈ occurrenceLocs store kind name,
          ¬(loc.uri = uri ∧ rangeContainsPosition loc.range ⟨line, col⟩ = true)) →
        filterOutLocationAtPosition (findReferences store kind name ns) uri line col
          = occurrenceLocs store kind name) ∧
    (∀ (store : Store) (kind name ns uri : String) (line col : Nat) (d : K8sResource),
        store.Get kind ns name = some d →
        ¬((locOfResourceDef d).uri = uri ∧
          rangeContainsPosition (locOfResourceDef d).range ⟨line, col⟩ = true) →
        filterOutLocationAtPosition (findReferences store kind name ns) uri line col
          = locOfResourceDef d ::
              filterOutLocationAtPosition (occurrenceLocs store kind name) uri line col) ∧
    (∀ (cfg : Config) (store : Store) (fs : FileSystem) (root : YNode) (rest : List YNode)
        (uri : String) (line col : Nat) (node : YNode) (parent : Option YNode)
        (path : List String),
        findNodeAt root (line + 1) (col + 1) = some (node, parent, path) →
        refsBranchSubPath store fs root node parent path = none →
        refsBranchCMKey store root node parent path uri line col = none →
        refsBranchPVC root node path uri line col = none →
        path = ["metadata", "name"] →
        findKind root ≠ "" → findName root ≠ "" →
        ResolveReferences cfg store fs (root :: rest) uri line col =
          filterOutLocationAtPosition
            (findReferences store (findKind root) (findName root) (findNamespace root))
            uri line col) := by
  have h0 : ∀ (store : Store) (kind name ns : String) (d : K8sResource),
      store.Get kind ns name = some d →
      findReferences store kind name ns
        = locOfResourceDef d :: occurrenceLocs store kind name := by
    intro store kind name ns d hget
    simp [findReferences, hget]
  refine ⟨?_, ?_, ?_⟩
  · intro store kind name ns uri line col d hget hduri hdrange hocc
    rw [h0 store kind name ns d hget, filterOut_cons_at _ _ _ _ _ hduri hdrange,
      filterOut_all_kept _ _ _ _ hocc]
  · intro store kind name ns uri line col d hget hnot
    rw [h0 store kind name ns d hget, filterOut_cons_not_at _ _ _ _ _ hnot]
  · intro cfg store fs root rest uri line col node parent path hfind hsub hcm hpvc hpath
      hkind hname
    have hOrNone : ∀ (f : Unit → Option (List Location)),
        Option.orElse none f = f () := fun f => rfl
    have hOrSome : ∀ (x : List Location) (f : Unit → Option (List Location)),
        Option.orElse (some x) f = some x := fun x f => rfl
    have hmeta : refsBranchMetaName store root path uri line col
        = some (filterOutLocationAtPosition
            (findReferences store (findKind root) (findName root) (findNamespace root))
            uri line col) := by
      unfold refsBranchMetaName
      rw [if_pos hpath]
      dsimp only []
      rw [if_pos ⟨hkind, hname⟩]
    have hdoc : resolveReferencesDoc cfg store fs root uri line col
        = some (filterOutLocationAtPosition
            (findReferences store (findKind root) (findName root) (findNamespace root))
            uri line col) := by
      unfold resolveReferencesDoc
      rw [hfind]
      dsimp only []
      rw [hsub, hOrNone, hcm, hOrNone, hpvc, hOrNone, hmeta, hOrSome]
    show resolveReferencesDocs cfg store fs (root :: rest) uri line col = _
    simp [resolveReferencesDocs, hdoc]

/-- C1 counterexample: one stored occurrence (N = 1) and the cursor on the
resource's own `metadata.name` value yield a single location — the occurrence
alone — because the definition's own token is removed by the query-site
filter; the claimed N+1 = 2 locations are not returned. -/
theorem metaname_refs_cex :
    ResolveReferences cfgEmpty storeC1 fsEmpty [svcDocC1] "file:///a.yaml" 3 8 =
      [⟨"file:///b.yaml", ⟨⟨10, 20⟩, ⟨10, 23⟩⟩⟩] ∧
    findReferences storeC1 "Service" "svc" "" =
      [⟨"file:///a.yaml", ⟨⟨3, 8⟩, ⟨3, 11⟩⟩⟩,
       ⟨"file:///b.yaml", ⟨⟨10, 20⟩, ⟨10, 23⟩⟩⟩] ∧
    occurrenceLocs storeC1 "Service" "svc" = [⟨"file:///b.yaml", ⟨⟨10, 20⟩, ⟨10, 23⟩⟩⟩] ∧
    (ResolveReferences cfgEmpty storeC1 fsEmpty [svcDocC1] "file:///a.yaml" 3 8).length
      = 1 ∧
    (occurrenceLocs storeC1 "Service" "svc").length + 1 = 2 ∧ (1 : Nat) ≠ 2 :=
  ⟨rfl, rfl, rfl, rfl, rfl, by decide⟩

theorem metaname_refs_witness :
    filterOutLocationAtPosition (findReferences storeC1 "Service" "svc" "")
      "file:///a.yaml" 3 8 = occurrenceLocs storeC1 "Service" "svc" ∧
    filterOutLocationAtPosition (findReferences storeC1 "Service" "svc" "")
      "file:///b.yaml" 10 20 =
      locOfResourceDef svcResC1 ::
        filterOutLocationAtPosition (occurrenceLocs storeC1 "Service" "svc")
          "file:///b.yaml" 10 20 ∧
    ResolveReferences cfgEmpty storeC1 fsEmpty [svcDocC1] "file:///a.yaml" 3 8 =
      filterOutLocationAtPosition
        (findReferences storeC1 (findKind svcDocC1) (findName svcDocC1)
          (findNamespace svcDocC1)) "file:///a.yaml" 3 8 := by
  obtain ⟨p1, p2, p3⟩ := metaname_refs_characterization
  exact ⟨p1 storeC1 "Service" "svc" "" "file:///a.yaml" 3 8 svcResC1 rfl rfl rfl
      (by decide),
    p2 storeC1 "Service" "svc" "" "file:///b.yaml" 10 20 svcResC1 rfl (by decide),
    p3 cfgEmpty storeC1 fsEmpty svcDocC1 [] "file:///a.yaml" 3 8 (sc "svc" 4 9)
      (some (.mapping [(sc "name" 4 3, sc "svc" 4 9)] 4 3)) ["metadata", "name"]
      rfl rfl rfl rfl rfl (by decide) (by decide)⟩

end K8sLsp
